import Mathlib

/-!
Verification development for the zero-lag-algo core: a shallow embedding of
`forex_alerts/services/signal_calculator.py` (VWAP, EMA, ZLMA, crossover
detection) and `forex_alerts/services/data_storage.py` (in-memory bar store),
with theorems settling the behavioural claims about them.

Conventions of the embedding:
- pandas DataFrames become a record of an index of timestamps (rationals),
  a list of column names, and row-major cells;
- machine floats become rationals (the algorithms use only field operations,
  comparisons and absolute value);
- Python `raise ValueError(msg)` becomes `Except.error msg` over the message
  string, built exactly as the source builds it;
- the wall-clock reads (`datetime.now()`) are passed in as an explicit
  `now` argument.
-/

namespace ZeroLag

/-- A single quote character, used when reproducing Python message strings. -/
def sq : String := String.singleton (Char.ofNat 39)

/-- Python `repr` of a list of strings, as used by
`f"Missing required columns: \x7bmissing_columns\x7d"`. -/
def pyStrListRepr (l : List String) : String :=
  "[" ++ String.intercalate ", " (l.map (fun s => sq ++ s ++ sq)) ++ "]"

/-- Embedding of a pandas DataFrame of OHLCV bars: `hasDatetimeIndex`
models `isinstance(data.index, pd.DatetimeIndex)`; `rows` pairs each index
entry (a timestamp, as a rational instant measured in days) with the cell
values of that row, aligned positionally with `cols`. -/
structure DataFrame where
  hasDatetimeIndex : Bool
  cols : List String
  rows : List (ℚ × List ℚ)
deriving Repr, DecidableEq

/-- The calendar date of a timestamp: the day number it falls in
(models `pandas.DatetimeIndex.date`). -/
def dateOf (t : ℚ) : ℤ := ⌊t⌋

/-- Value of column `c` in a row whose cells are `cells` (aligned with `cols`). -/
def cellVal (cols : List String) (cells : List ℚ) (c : String) : Option ℚ :=
  ((cols.zip cells).find? (fun p => p.1 == c)).map (·.2)

/-- The series of column `c` over all rows of `df` (`data[c]`); the default 0
is never reached on rectangular frames that contain the column. -/
def colSeries (df : DataFrame) (c : String) : List ℚ :=
  df.rows.map (fun r => (cellVal df.cols r.2 c).getD 0)

/-- The timestamps of the index (`data.index`). -/
def indexTs (df : DataFrame) : List ℚ := df.rows.map (·.1)

/-! ### EMA (`SignalCalculator.calculate_ema`) -/

/-- The standard EMA smoothing factor `alpha = 2 / (length + 1)` used by
`ewm(span=ema_length, adjust=False)`. -/
def alphaOf (length : ℕ) : ℚ := 2 / (length + 1)

/-- Tail of the exponentially weighted mean: given the previous smoothed
value `prev`, emits `alpha*x + (1-alpha)*prev` for each further input. -/
def ewmFrom (alpha : ℚ) (prev : ℚ) : List ℚ → List ℚ
  | [] => []
  | x :: xs => (alpha * x + (1 - alpha) * prev) :: ewmFrom alpha (alpha * x + (1 - alpha) * prev) xs

/-- `Series.ewm(span, adjust=False).mean()` on a NaN-free series: seeded with
the first value, then the standard recursive smoothing. -/
def ewmMean (alpha : ℚ) : List ℚ → List ℚ
  | [] => []
  | x :: xs => x :: ewmFrom alpha x xs

/-- `SignalCalculator.calculate_ema(data, length)`; `selfLen` is the
constructor-validated `self.ema_length`, `length=none` models the default
argument. -/
def calculate_ema (selfLen : ℕ) (df : DataFrame) (length : Option ℕ) :
    Except String (List ℚ) :=
  if df.rows.isEmpty then
    Except.error "Data cannot be empty"
  else if !(df.cols.contains "close") then
    Except.error ("Missing required column: " ++ sq ++ "close" ++ sq)
  else
    let ema_length := length.getD selfLen
    if ema_length ≤ 0 then
      Except.error "EMA length must be positive"
    else
      Except.ok (ewmMean (alphaOf ema_length) (colSeries df "close"))

/-! ### ZLMA (`SignalCalculator.calculate_zlma`) -/

/-- The temporary frame `pd.DataFrame({close: adjusted_close}, index=data.index)`
built inside `calculate_zlma`. -/
def tempCloseFrame (df : DataFrame) (adjusted : List ℚ) : DataFrame :=
  { hasDatetimeIndex := df.hasDatetimeIndex
    cols := ["close"]
    rows := List.zipWith (fun (r : ℚ × List ℚ) v => (r.1, [v])) df.rows adjusted }

/-- `SignalCalculator.calculate_zlma(data, length)`: EMA of the
overshoot-adjusted close series `close + (close - ema(close, length))`. -/
def calculate_zlma (selfLen : ℕ) (df : DataFrame) (length : Option ℕ) :
    Except String (List ℚ) :=
  if df.rows.isEmpty then
    Except.error "Data cannot be empty"
  else if !(df.cols.contains "close") then
    Except.error ("Missing required column: " ++ sq ++ "close" ++ sq)
  else
    let ema_length := length.getD selfLen
    if ema_length ≤ 0 then
      Except.error "EMA length must be positive"
    else
      match calculate_ema selfLen df (some ema_length) with
      | Except.error e => Except.error e
      | Except.ok ema_close =>
        let close := colSeries df "close"
        let lag_difference := List.zipWith (fun c e => c - e) close ema_close
        let adjusted_close := List.zipWith (fun c d => c + d) close lag_difference
        calculate_ema selfLen (tempCloseFrame df adjusted_close) (some ema_length)

/-! ### VWAP (`SignalCalculator.calculate_vwap`) -/

/-- Collapse consecutive duplicates of a list. On a sorted list this yields
the distinct values in ascending order. -/
def dedupConsecutive : List ℤ → List ℤ
  | [] => []
  | [a] => [a]
  | a :: b :: t => if a = b then dedupConsecutive (b :: t) else a :: dedupConsecutive (b :: t)

/-- The distinct group keys in ascending order — the order in which
`DataFrame.groupby` iterates its groups. -/
def sortedDistinctKeys (ks : List ℤ) : List ℤ :=
  dedupConsecutive (List.insertionSort (fun a b => a ≤ b) ks)

/-- Cumulative-sum VWAP of one session: running sums of price*volume and of
volume, with NaN (`none`) emitted while cumulative volume is not positive. -/
def sessionVwapGo (cpv cvol : ℚ) : List (ℚ × ℚ) → List (Option ℚ)
  | [] => []
  | (pv, v) :: rest =>
    (if cvol + v > 0 then some ((cpv + pv) / (cvol + v)) else none)
      :: sessionVwapGo (cpv + pv) (cvol + v) rest

/-- VWAP of one `groupby` session, starting from zero accumulators. -/
def sessionVwap (l : List (ℚ × ℚ)) : List (Option ℚ) := sessionVwapGo 0 0 l

/-- The session key of each row: the calendar date when the index carries
dates, otherwise the constant 0 (single session). -/
def sessionKeys (df : DataFrame) : List ℤ :=
  if df.hasDatetimeIndex then (indexTs df).map dateOf else df.rows.map (fun _ => 0)

/-- The typical price series `(high + low + close) / 3`. -/
def typicalSeries (df : DataFrame) : List ℚ :=
  List.zipWith (fun hl c => (hl + c) / 3)
    (List.zipWith (fun h l => h + l) (colSeries df "high") (colSeries df "low"))
    (colSeries df "close")

/-- The per-row `(session key, (typical_price * volume, volume))` triples the
VWAP computation runs on. -/
def keyedVolumes (df : DataFrame) : List (ℤ × ℚ × ℚ) :=
  let vol := colSeries df "volume"
  (sessionKeys df).zip
    ((List.zipWith (fun tp v => tp * v) (typicalSeries df) vol).zip vol)

/-- The VWAP computation proper of `SignalCalculator.calculate_vwap`: group
the rows by calendar date, compute cumulative VWAP inside each group (groups
in ascending key order), and reassemble the collected values positionally
against the original index (`pd.Series(vwap_values, index=data.index)`). -/
def groupbyVwap (keyed : List (ℤ × ℚ × ℚ)) : List (Option ℚ) :=
  (sortedDistinctKeys (keyed.map (·.1))).flatMap
    (fun k => sessionVwap ((keyed.filter (fun r => r.1 == k)).map (·.2)))

/-- `SignalCalculator.calculate_vwap(data)` (validation part). -/
def calculate_vwap (df : DataFrame) : Except String (List (Option ℚ)) :=
  if df.rows.isEmpty then
    Except.error "Data cannot be empty"
  else
    let missing := ["high", "low", "close", "volume"].filter (fun c => !(df.cols.contains c))
    if !missing.isEmpty then
      Except.error ("Missing required columns: " ++ pyStrListRepr missing)
    else
      Except.ok (groupbyVwap (keyedVolumes df))

/-! ### Signals (`SignalCalculator.detect_signals`) -/

/-- Modelled from the spec: `models/signal.py` is not present under `src/`
(only its import and call sites are). Spec §3 defines Signal as a plain
immutable record of instrument, direction, price (close at the crossover
bar), timestamp (bar timestamp, or wall-clock when the index carries no
dates), the two indicator values and a confidence; no construction-time
validation is stated for it (unlike Bar). -/
structure Signal where
  symbol : String
  signal_type : String
  price : ℚ
  timestamp : ℚ
  zlma_value : ℚ
  ema_value : ℚ
  confidence : ℚ
deriving Repr, DecidableEq

/-- `SignalCalculator._calculate_signal_confidence`. -/
def signalConfidence (current_zlma current_ema prev_zlma prev_ema : ℚ) : ℚ :=
  let current_separation := |current_zlma - current_ema|
  let avg_price := (current_zlma + current_ema) / 2
  let separation_pct := if avg_price > 0 then current_separation / avg_price else 0
  let prev_separation := |prev_zlma - prev_ema|
  let prev_avg_price := (prev_zlma + prev_ema) / 2
  let prev_separation_pct := if prev_avg_price > 0 then prev_separation / prev_avg_price else 0
  let confidence := 1/2 + min (separation_pct * 100) (3/10)
  let confidence :=
    if prev_separation_pct > 0 then
      confidence + min ((separation_pct / prev_separation_pct) * (1/10)) (1/5)
    else confidence
  min (max confidence 0) 1

/-- The Signal record built at loop index `i` of `detect_signals`. -/
def mkSignal (symbol : String) (df : DataFrame) (now : ℚ) (ty : String) (i : ℕ)
    (cz ce pz pe : ℚ) : Signal :=
  { symbol := symbol
    signal_type := ty
    price := (colSeries df "close").getD i 0
    timestamp := if df.hasDatetimeIndex then (indexTs df).getD i 0 else now
    zlma_value := cz
    ema_value := ce
    confidence := signalConfidence cz ce pz pe }

/-- The body of the `for i in range(1, len(data))` loop of `detect_signals`:
read the four indicator values, skip the index when any is undefined, append
a BUY on a bullish crossover and a SELL on a bearish one. -/
def detectStep (symbol : String) (df : DataFrame) (now : ℚ)
    (zlma ema : List (Option ℚ)) (acc : List Signal) (i : ℕ) : List Signal :=
  match zlma.getD i none, ema.getD i none, zlma.getD (i-1) none, ema.getD (i-1) none with
  | some cz, some ce, some pz, some pe =>
    if pz ≤ pe ∧ cz > ce then acc ++ [mkSignal symbol df now "BUY" i cz ce pz pe]
    else if pz ≥ pe ∧ cz < ce then acc ++ [mkSignal symbol df now "SELL" i cz ce pz pe]
    else acc
  | _, _, _, _ => acc

/-- `SignalCalculator.detect_signals(data, symbol)`. The indicator series are
NaN-free on validated bar input, hence the `Option.some` injections; `now` is
the wall clock used when the index bears no dates. -/
def detect_signals (selfLen : ℕ) (df : DataFrame) (symbol : String) (now : ℚ) :
    Except String (List Signal) :=
  if df.rows.isEmpty then
    Except.error "Data cannot be empty"
  else if !(df.cols.contains "close") then
    Except.error ("Missing required column: " ++ sq ++ "close" ++ sq)
  else if df.rows.length < selfLen then
    Except.error ("Insufficient data: need at least " ++ toString selfLen ++ " periods")
  else
    match calculate_ema selfLen df none with
    | Except.error e => Except.error e
    | Except.ok ema =>
      match calculate_zlma selfLen df none with
      | Except.error e => Except.error e
      | Except.ok zlma =>
        Except.ok ((List.range' 1 (df.rows.length - 1)).foldl
          (detectStep symbol df now (zlma.map some) (ema.map some)) [])

/-! ### Storage (`DataStorage`) -/

/-- The `_storage` dict: an insertion-ordered association of symbol to frame
(Python dicts preserve insertion order and have unique keys). -/
abbrev Store := List (String × DataFrame)

/-- Dictionary lookup `self._storage[symbol]` / `symbol in self._storage`. -/
def lookupSym (st : Store) (symbol : String) : Option DataFrame :=
  (st.find? (fun e => e.1 == symbol)).map (·.2)

/-- Replace the frame stored under an existing key, in place. -/
def updateSym (st : Store) (symbol : String) (df : DataFrame) : Store :=
  st.map (fun e => if e.1 == symbol then (e.1, df) else e)

/-- `combined[~combined.index.duplicated(keep=last)]`: keep a row only when
no later row has the same timestamp. -/
def dedupKeepLast : List (ℚ × List ℚ) → List (ℚ × List ℚ)
  | [] => []
  | r :: rest =>
    if rest.any (fun x => x.1 == r.1) then dedupKeepLast rest
    else r :: dedupKeepLast rest

/-- `combined.sort_index()`: sort rows by timestamp (timestamps are unique
after deduplication, so any comparison sort gives this result). -/
def sortByTs (rows : List (ℚ × List ℚ)) : List (ℚ × List ℚ) :=
  List.insertionSort (fun a b => a.1 ≤ b.1) rows

/-- `DataStorage.store_data(symbol, data)`. An empty batch is a no-op; a
batch for a known symbol is concatenated after the existing rows,
deduplicated keeping the later row per timestamp, and re-sorted; a batch for
a new symbol is stored as passed. The opportunistic time-triggered cleanup
sweep is modelled separately as `cleanup_old_data`. -/
def store_data (st : Store) (symbol : String) (df : DataFrame) : Store :=
  if df.rows.isEmpty then st
  else
    match lookupSym st symbol with
    | some existing =>
      updateSym st symbol
        { existing with rows := sortByTs (dedupKeepLast (existing.rows ++ df.rows)) }
    | none => st ++ [(symbol, df)]

/-- `DataStorage.get_historical_data(symbol, periods)`: the most recent
`periods` rows (`data.tail(periods)`), or the whole frame when it is at most
that long; `none` for an unknown symbol or an empty frame. -/
def get_historical_data (st : Store) (symbol : String) (periods : ℕ) : Option DataFrame :=
  match lookupSym st symbol with
  | none => none
  | some df =>
    if df.rows.isEmpty then none
    else if df.rows.length ≤ periods then some df
    else some { df with rows := df.rows.drop (df.rows.length - periods) }

/-- `DataStorage.get_latest_price(symbol)`: the `Close` cell of the last row.
(The source would raise a `KeyError` on a frame without that column; the
claims only exercise frames that have it, so that path is collapsed to
`none` here.) -/
def get_latest_price (st : Store) (symbol : String) : Option ℚ :=
  match lookupSym st symbol with
  | none => none
  | some df =>
    match df.rows.getLast? with
    | none => none
    | some r => cellVal df.cols r.2 "Close"

/-- `DataStorage.cleanup_old_data()` with `cutoff_time = now - retention`:
drop already-empty frames, keep only rows with `index >= cutoff_time`, and
remove symbols left with no recent rows. -/
def cleanup_old_data (st : Store) (now retention : ℚ) : Store :=
  let cutoff_time := now - retention
  st.filterMap (fun e =>
    if e.2.rows.isEmpty then none
    else
      let recent := e.2.rows.filter (fun r => cutoff_time ≤ r.1)
      if recent.isEmpty then none
      else some (e.1, { e.2 with rows := recent }))

/-- The `symbols` entry of `DataStorage.get_storage_stats()`:
`list(self._storage.keys())`. -/
def statsSymbols (st : Store) : List String := st.map (·.1)

/-! ### Spec-side definitions

These follow the wording of the specification and of the claims, to be
compared against the source-derived definitions above. -/

/-- Spec wording of the EMA recursion (claim C2): `ema[0] = close[0]` and
`ema[i] = alpha*close[i] + (1-alpha)*ema[i-1]`. -/
def emaSpecAt (alpha : ℚ) (close : List ℚ) : ℕ → ℚ
  | 0 => close.getD 0 0
  | i + 1 => alpha * close.getD (i + 1) 0 + (1 - alpha) * emaSpecAt alpha close i

/-- Spec wording of session-anchored VWAP (claim C3), streaming over the
rows: the running sums reset exactly when the session key changes from the
previous row, the emitted value is undefined while the cumulated volume is
still zero, and a zero-volume bar never resets the sums. -/
def vwapSpecGo (prevKey : ℤ) (cpv cvol : ℚ) : List (ℤ × ℚ × ℚ) → List (Option ℚ)
  | [] => []
  | (k, pv, v) :: rest =>
    let cpv0 := if k = prevKey then cpv else 0
    let cvol0 := if k = prevKey then cvol else 0
    (if cvol0 + v = 0 then none else some ((cpv0 + pv) / (cvol0 + v)))
      :: vwapSpecGo k (cpv0 + pv) (cvol0 + v) rest

/-- Spec wording of session-anchored VWAP over keyed rows. -/
def vwapSpec (l : List (ℤ × ℚ × ℚ)) : List (Option ℚ) :=
  match l with
  | [] => []
  | (k, _, _) :: _ => vwapSpecGo k 0 0 l

/-- Spec wording of the crossover rule at index `i` (claim C1): skip when any
of the four values is undefined, emit BUY exactly when
`zlma[i-1] <= ema[i-1]` and `zlma[i] > ema[i]`, SELL exactly when
`zlma[i-1] >= ema[i-1]` and `zlma[i] < ema[i]`. -/
def crossSignalAt (symbol : String) (df : DataFrame) (now : ℚ)
    (zlma ema : List (Option ℚ)) (i : ℕ) : Option Signal :=
  match zlma.getD (i-1) none, ema.getD (i-1) none, zlma.getD i none, ema.getD i none with
  | some pz, some pe, some cz, some ce =>
    if pz ≤ pe ∧ cz > ce then some (mkSignal symbol df now "BUY" i cz ce pz pe)
    else if pz ≥ pe ∧ cz < ce then some (mkSignal symbol df now "SELL" i cz ce pz pe)
    else none
  | _, _, _, _ => none

/-- The signal sequence claim C1 describes: scan indices 1 to length-1 in
order and collect the crossover signals. -/
def detectSpecList (symbol : String) (df : DataFrame) (now : ℚ)
    (zlma ema : List (Option ℚ)) : List Signal :=
  (List.range' 1 (df.rows.length - 1)).filterMap (crossSignalAt symbol df now zlma ema)

/-- The confidence formula exactly as claim C8 words it: the separation
percentage divides by the average, taken as 0 only when the average is 0,
and the decisiveness term applies whenever the previous separation
percentage is nonzero. -/
def claimConfidence (current_zlma current_ema prev_zlma prev_ema : ℚ) : ℚ :=
  let avg := (current_zlma + current_ema) / 2
  let separation_pct := if avg = 0 then 0 else |current_zlma - current_ema| / avg
  let prev_avg := (prev_zlma + prev_ema) / 2
  let prev_separation_pct := if prev_avg = 0 then 0 else |prev_zlma - prev_ema| / prev_avg
  let c := 1/2 + min (separation_pct * 100) (3/10)
  let c :=
    if prev_separation_pct ≠ 0 then
      c + min ((separation_pct / prev_separation_pct) * (1/10)) (1/5)
    else c
  min (max c 0) 1

/-- The confidence formula as amended: the division happens only when the
average is strictly positive (otherwise the separation percentage is 0), and
the decisiveness term applies only when the previous separation percentage
is strictly positive. -/
def amendedConfidence (current_zlma current_ema prev_zlma prev_ema : ℚ) : ℚ :=
  let avg := (current_zlma + current_ema) / 2
  let separation_pct := if avg > 0 then |current_zlma - current_ema| / avg else 0
  let prev_avg := (prev_zlma + prev_ema) / 2
  let prev_separation_pct := if prev_avg > 0 then |prev_zlma - prev_ema| / prev_avg else 0
  let c := 1/2 + min (separation_pct * 100) (3/10)
  let c :=
    if prev_separation_pct > 0 then
      c + min ((separation_pct / prev_separation_pct) * (1/10)) (1/5)
    else c
  min (max c 0) 1

/-! ### Concrete frames and stores used by witnesses and counterexamples -/

/-- The EMA check vector of the spec: closes `[10, 11, 12, 11, 10]`. -/
def dfEmaCheck : DataFrame :=
  ⟨true, ["close"], [(0, [10]), (1, [11]), (2, [12]), (3, [11]), (4, [10])]⟩

/-- Closes `[1, 1, -9]`: detected with length 2 this emits one SELL whose
current zlma/ema average is negative. -/
def dfConfCex : DataFrame := ⟨true, ["close"], [(0, [1]), (1, [1]), (2, [-9])]⟩

/-- Two one-bar sessions with the later calendar date first: typical prices
are 30 (day 1) and 6 (day 0), each with volume 1. -/
def dfVwapCex : DataFrame :=
  ⟨true, ["high", "low", "close", "volume"], [(1, [40, 30, 20, 1]), (0, [9, 6, 3, 1])]⟩

/-- A first batch whose rows are not sorted by timestamp. -/
def dfUnsorted : DataFrame := ⟨true, ["Close"], [(2, [5]), (1, [4])]⟩

/-- A first batch holding the same bar twice. -/
def dfDupBatch : DataFrame := ⟨true, ["Close"], [(1, [4]), (1, [4])]⟩

/-- A single bar at timestamp 1 with close 4. -/
def dfBarA : DataFrame := ⟨true, ["Close"], [(1, [4])]⟩

/-- A single bar at timestamp 1 with close 7 (a later write of the same
timestamp). -/
def dfBarB : DataFrame := ⟨true, ["Close"], [(1, [7])]⟩

/-- A sorted two-bar batch. -/
def dfSorted : DataFrame := ⟨true, ["Close"], [(1, [4]), (2, [5])]⟩

/-- A capitalized-columns frame as the fetch layer produces it. -/
def dfCapCols : DataFrame :=
  ⟨true, ["High", "Low", "Close", "Volume"], [(0, [2, 1, 1, 3])]⟩

/-- A well-formed but short frame: two bars, fewer than an EMA length of 3. -/
def dfShort : DataFrame := ⟨true, ["close"], [(0, [1]), (1, [1])]⟩

/-- The crossover check vector of the spec:
closes `[1.2, 1.1, 1.0, 1.05, 1.15, 1.25, 1.35]`. -/
def dfCross : DataFrame :=
  ⟨true, ["close"],
    [(0, [6/5]), (1, [11/10]), (2, [1]), (3, [21/20]), (4, [23/20]), (5, [5/4]), (6, [27/20])]⟩

/-- A two-session frame with sorted dates: day 0 holds two bars (the second
with zero volume), day 1 opens with a fresh positive-volume bar. -/
def dfVwapOk : DataFrame :=
  ⟨true, ["high", "low", "close", "volume"],
    [(0, [9, 6, 3, 2]), (1/2, [12, 6, 3, 0]), (1, [40, 30, 20, 5])]⟩

/-- A store holding frames for retention checks: one symbol with bars on
both sides of the cutoff, one with only stale bars. -/
def stRetention : Store :=
  [("OLD", ⟨true, ["Close"], [(1, [4]), (2, [5])]⟩),
   ("MIX", ⟨true, ["Close"], [(2, [6]), (8, [7])]⟩)]

/-! ### Spec-side storage predicates (C5) -/

/-- The ordering invariant of the spec: rows strictly ascending by
timestamp, hence free of duplicate timestamps. -/
def StrictRows (df : DataFrame) : Prop :=
  List.Pairwise (fun (a b : ℚ × List ℚ) => a.1 < b.1) df.rows

/-- Every frame reachable by lookup satisfies the ordering invariant. -/
def InvStore (st : Store) : Prop :=
  ∀ sym df, lookupSym st sym = some df → StrictRows df

/-- Run a sequence of store operations. -/
def runStores (st : Store) (ops : List (String × DataFrame)) : Store :=
  ops.foldl (fun s op => store_data s op.1 op.2) st

/-- Each operation of the sequence either merges into an instrument already
present at its turn, or carries a strictly sorted batch (the condition an
instrument-creating batch needs). -/
def OpsOk : Store → List (String × DataFrame) → Prop
  | _, [] => True
  | st, op :: t =>
    ((st.map (·.1)).contains op.1 = true ∨ StrictRows op.2)
      ∧ OpsOk (store_data st op.1 op.2) t

/-! ### Order instances used by the sorting lemmas -/

instance : IsTotal (ℚ × List ℚ) (fun a b => a.1 ≤ b.1) := ⟨fun a b => le_total a.1 b.1⟩

instance : IsTrans (ℚ × List ℚ) (fun a b => a.1 ≤ b.1) :=
  ⟨fun _ _ _ h₁ h₂ => le_trans h₁ h₂⟩

instance : IsTotal ℤ (fun a b => a ≤ b) := ⟨fun a b => le_total a b⟩

instance : IsTrans ℤ (fun a b => a ≤ b) := ⟨fun _ _ _ h₁ h₂ => le_trans h₁ h₂⟩

/-! ## Lemmas about the EMA recursion -/

theorem ewmFrom_length (alpha p : ℚ) (xs : List ℚ) : (ewmFrom alpha p xs).length = xs.length := by
  induction xs generalizing p with
  | nil => rfl
  | cons x t ih => simp [ewmFrom, ih]

theorem ewmMean_length (alpha : ℚ) (c : List ℚ) : (ewmMean alpha c).length = c.length := by
  cases c with
  | nil => rfl
  | cons x t => simp [ewmMean, ewmFrom_length]

theorem ewmFrom_getD_spec (alpha : ℚ) (xs : List ℚ) :
    ∀ (p : ℚ) (i : ℕ), i < xs.length →
      (ewmFrom alpha p xs).getD i 0
        = alpha * xs.getD i 0
          + (1 - alpha) * (if i = 0 then p else (ewmFrom alpha p xs).getD (i - 1) 0) := by
  induction xs with
  | nil => intro p i h; simp at h
  | cons x t ih =>
    intro p i h
    cases i with
    | zero => simp [ewmFrom]
    | succ j =>
      have hj : j < t.length := by simpa using h
      have := ih (alpha * x + (1 - alpha) * p) j hj
      cases j with
      | zero => simpa [ewmFrom] using this
      | succ k => simpa [ewmFrom] using this

theorem ewmMean_getD_succ (alpha : ℚ) (c : List ℚ) (i : ℕ) (h : i + 1 < c.length) :
    (ewmMean alpha c).getD (i + 1) 0
      = alpha * c.getD (i + 1) 0 + (1 - alpha) * (ewmMean alpha c).getD i 0 := by
  cases c with
  | nil => simp at h
  | cons x t =>
    have ht : i < t.length := by simpa using h
    have := ewmFrom_getD_spec alpha t x i ht
    cases i with
    | zero => simpa [ewmMean, ewmFrom] using this
    | succ k => simpa [ewmMean, ewmFrom] using this

theorem ewmMean_eq_emaSpecAt (alpha : ℚ) (c : List ℚ) :
    ∀ i, i < c.length → (ewmMean alpha c).getD i 0 = emaSpecAt alpha c i := by
  intro i
  induction i with
  | zero =>
    intro h
    cases c with
    | nil => simp at h
    | cons x t => simp [ewmMean, emaSpecAt]
  | succ j ih =>
    intro h
    have hj : j < c.length := by omega
    rw [ewmMean_getD_succ alpha c j h, ih hj, emaSpecAt]

/-- Reduction of `calculate_ema` on validated input. -/
theorem calculate_ema_ok (selfLen : ℕ) (df : DataFrame) (length : Option ℕ)
    (hne : df.rows ≠ []) (hcl : df.cols.contains "close" = true)
    (hl : 0 < length.getD selfLen) :
    calculate_ema selfLen df length
      = Except.ok (ewmMean (alphaOf (length.getD selfLen)) (colSeries df "close")) := by
  have h1 : df.rows.isEmpty = false := by
    cases h : df.rows with
    | nil => exact absurd h hne
    | cons a t => rfl
  have h2 : ¬ (length.getD selfLen ≤ 0) := by omega
  have hmem : "close" ∈ df.cols := by simpa using hcl
  simp [calculate_ema, h1, hmem, h2]

/-- C2: for every non-empty close series and positive length, `calculate_ema`
returns exactly the sequence of the recursion `ema[0] = close[0]`,
`ema[i] = alpha*close[i] + (1-alpha)*ema[i-1]` with `alpha = 2/(length+1)`;
and on closes `[10, 11, 12, 11, 10]` with length 3 it returns
`[10.0, 10.5, 11.25, 11.125, 10.5625]` exactly (hence within any positive
tolerance). -/
theorem C2_ema_recursion_and_check :
    (∀ (selfLen l : ℕ) (df : DataFrame),
      df.rows ≠ [] → df.cols.contains "close" = true → 0 < l →
        calculate_ema selfLen df (some l)
            = Except.ok (ewmMean (alphaOf l) (colSeries df "close"))
          ∧ ∀ i, i < df.rows.length →
              (ewmMean (alphaOf l) (colSeries df "close")).getD i 0
                = emaSpecAt (alphaOf l) (colSeries df "close") i)
    ∧ calculate_ema 15 dfEmaCheck (some 3)
        = Except.ok [10, 10.5, 11.25, 11.125, 10.5625] := by
  constructor
  · intro selfLen l df hne hcl hl
    refine ⟨by simpa using calculate_ema_ok selfLen df (some l) hne hcl (by simpa using hl), ?_⟩
    intro i hi
    have hlen : (colSeries df "close").length = df.rows.length := by simp [colSeries]
    exact ewmMean_eq_emaSpecAt (alphaOf l) (colSeries df "close") i (by omega)
  · norm_num [calculate_ema, dfEmaCheck, colSeries, cellVal, alphaOf, ewmMean, ewmFrom]

/-- Witness for C2: the hypotheses hold at the concrete check frame. -/
theorem C2_ema_recursion_and_check_witness :
    calculate_ema 15 dfEmaCheck (some 3)
      = Except.ok (ewmMean (alphaOf 3) (colSeries dfEmaCheck "close")) :=
  (C2_ema_recursion_and_check.1 15 3 dfEmaCheck (by decide) (by decide) (by decide)).1

/-! ## Lemmas for the ZLMA formula -/

theorem map_close_zip (rows : List (ℚ × List ℚ)) :
    ∀ (adj : List ℚ),
      (List.zipWith (fun (r : ℚ × List ℚ) v => (r.1, [v])) rows adj).map
          (fun r => (cellVal ["close"] r.2 "close").getD 0)
        = adj.take rows.length := by
  induction rows with
  | nil => intro adj; simp
  | cons r t ih =>
    intro adj
    cases adj with
    | nil => simp
    | cons v vs =>
      rw [List.zipWith_cons_cons, List.map_cons, List.length_cons, List.take_succ_cons, ih vs]
      rfl

theorem colSeries_tempCloseFrame (df : DataFrame) (adj : List ℚ) :
    colSeries (tempCloseFrame df adj) "close" = adj.take df.rows.length := by
  simpa [colSeries, tempCloseFrame] using map_close_zip df.rows adj

theorem zipWith_overshoot (c : List ℚ) :
    ∀ (e : List ℚ),
      List.zipWith (fun x d => x + d) c (List.zipWith (fun x y => x - y) c e)
        = List.zipWith (fun x y => x + (x - y)) c e := by
  induction c with
  | nil => intro e; simp
  | cons x t ih =>
    intro e
    cases e with
    | nil => simp
    | cons y es => simp [ih es]

/-- Reduction of `calculate_zlma` on validated input: it equals the EMA of
the overshoot-adjusted close series. -/
theorem calculate_zlma_ok (selfLen : ℕ) (df : DataFrame) (length : Option ℕ)
    (hne : df.rows ≠ []) (hcl : df.cols.contains "close" = true)
    (hl0 : 0 < length.getD selfLen) :
    calculate_zlma selfLen df length
      = Except.ok (ewmMean (alphaOf (length.getD selfLen))
          (List.zipWith (fun c e => c + (c - e)) (colSeries df "close")
            (ewmMean (alphaOf (length.getD selfLen)) (colSeries df "close")))) := by
  set l := length.getD selfLen with hldef
  have h1 : df.rows.isEmpty = false := by
    cases h : df.rows with
    | nil => exact absurd h hne
    | cons a t => rfl
  have h2 : ¬ (l ≤ 0) := by omega
  have hmem : "close" ∈ df.cols := by simpa using hcl
  have hn : 0 < df.rows.length := List.length_pos.mpr hne
  have hema := calculate_ema_ok selfLen df (some l) hne hcl (by simpa using hl0)
  simp only [Option.getD_some] at hema
  have hclen : (colSeries df "close").length = df.rows.length := by simp [colSeries]
  have hemalen : (ewmMean (alphaOf l) (colSeries df "close")).length = df.rows.length := by
    rw [ewmMean_length, hclen]
  set adj := List.zipWith (fun x y => x + (x - y)) (colSeries df "close")
    (ewmMean (alphaOf l) (colSeries df "close")) with hadj
  have hadjlen : adj.length = df.rows.length := by
    rw [hadj]; simp [hclen, hemalen]
  have htne : (tempCloseFrame df adj).rows ≠ [] := by
    have : (tempCloseFrame df adj).rows.length = df.rows.length := by
      simp [tempCloseFrame, hadjlen]
    intro hfalse
    rw [hfalse] at this
    simp at this
    omega
  have htc : (tempCloseFrame df adj).cols.contains "close" = true := rfl
  have houter := calculate_ema_ok selfLen (tempCloseFrame df adj) (some l) htne htc
    (by simpa using hl0)
  simp only [Option.getD_some] at houter
  rw [colSeries_tempCloseFrame, ← hadjlen, List.take_length] at houter
  unfold calculate_zlma
  rw [if_neg (by simp [h1]), if_neg (by simp [hmem])]
  rw [← hldef]
  rw [if_neg h2]
  simp only [hema]
  rw [zipWith_overshoot, ← hadj, houter]

/-- C4: `calculate_zlma` computes exactly
`ema(close + (close - ema(close, length)), length)`: the plain EMA first,
then the same EMA recursion with the same length applied to the
overshoot-adjusted series `close[i] + (close[i] - ema[i])`. -/
theorem C4_zlma_formula (selfLen l : ℕ) (df : DataFrame)
    (hne : df.rows ≠ []) (hcl : df.cols.contains "close" = true) (hl : 0 < l) :
    calculate_zlma selfLen df (some l)
      = Except.ok (ewmMean (alphaOf l)
          (List.zipWith (fun c e => c + (c - e)) (colSeries df "close")
            (ewmMean (alphaOf l) (colSeries df "close")))) := by
  simpa using calculate_zlma_ok selfLen df (some l) hne hcl (by simpa using hl)

/-- Witness for C4 at the concrete EMA check frame. -/
theorem C4_zlma_formula_witness :
    calculate_zlma 15 dfEmaCheck (some 3)
      = Except.ok (ewmMean (alphaOf 3)
          (List.zipWith (fun c e => c + (c - e)) (colSeries dfEmaCheck "close")
            (ewmMean (alphaOf 3) (colSeries dfEmaCheck "close")))) :=
  C4_zlma_formula 15 3 dfEmaCheck (by decide) (by decide) (by decide)

/-! ## Error-message lemmas -/

theorem string_data_append (s t : String) : (s ++ t).data = s.data ++ t.data := by
  cases s; cases t; rfl

theorem insufficientMsg_head (n : ℕ) :
    ("Insufficient data: need at least " ++ toString n ++ " periods").data.head?
      = some (Char.ofNat 73) := by
  rw [string_data_append, string_data_append]
  rw [List.append_assoc, List.head?_append]
  rfl

/-- C7: on a well-formed but too-short frame, `detect_signals` surfaces the
insufficient-data failure: an error distinct from the two validation errors
(empty data, missing close column) that malformed input raises, and no
signal list is produced. -/
theorem C7_insufficient_data (selfLen : ℕ) (df : DataFrame) (symbol : String) (now : ℚ)
    (hne : df.rows ≠ []) (hcl : df.cols.contains "close" = true)
    (hlt : df.rows.length < selfLen) :
    detect_signals selfLen df symbol now
        = Except.error ("Insufficient data: need at least " ++ toString selfLen ++ " periods")
      ∧ (∀ n : ℕ,
          ("Insufficient data: need at least " ++ toString n ++ " periods"
              ≠ "Data cannot be empty")
          ∧ ("Insufficient data: need at least " ++ toString n ++ " periods"
              ≠ "Missing required column: " ++ sq ++ "close" ++ sq))
      ∧ (∀ sigs, detect_signals selfLen df symbol now ≠ Except.ok sigs) := by
  have h1 : df.rows.isEmpty = false := by
    cases h : df.rows with
    | nil => exact absurd h hne
    | cons a t => rfl
  have hmem : "close" ∈ df.cols := by simpa using hcl
  have herr : detect_signals selfLen df symbol now
      = Except.error ("Insufficient data: need at least " ++ toString selfLen ++ " periods") := by
    unfold detect_signals
    rw [if_neg (by simp [h1]), if_neg (by simp [hmem]), if_pos hlt]
  refine ⟨herr, ?_, ?_⟩
  · intro n
    constructor
    · intro h
      have hd : ("Insufficient data: need at least " ++ toString n ++ " periods").data.head?
          = ("Data cannot be empty" : String).data.head? :=
        congrArg (fun s => s.data.head?) h
      rw [insufficientMsg_head n] at hd
      simp at hd
    · intro h
      have hd : ("Insufficient data: need at least " ++ toString n ++ " periods").data.head?
          = ("Missing required column: " ++ sq ++ "close" ++ sq).data.head? :=
        congrArg (fun s => s.data.head?) h
      rw [insufficientMsg_head n] at hd
      rw [string_data_append, string_data_append, List.append_assoc, List.head?_append] at hd
      simp at hd
  · intro sigs h
    rw [herr] at h
    exact Except.noConfusion h

/-- Witness for C7: a two-bar close frame against a configured length of 3. -/
theorem C7_insufficient_data_witness :
    detect_signals 3 dfShort "EURUSD" 0
      = Except.error ("Insufficient data: need at least " ++ toString 3 ++ " periods") :=
  (C7_insufficient_data 3 dfShort "EURUSD" 0 (by decide) (by decide) (by decide)).1

/-- Reading `get_latest_price` through a successful symbol lookup. -/
theorem get_latest_price_eq (st : Store) (symbol : String) (df : DataFrame)
    (h : lookupSym st symbol = some df) :
    get_latest_price st symbol
      = match df.rows.getLast? with
        | none => none
        | some r => cellVal df.cols r.2 "Close" := by
  unfold get_latest_price
  rw [h]

/-- C10: the indicator and detector column checks are case-sensitive on the
lowercase names, so a capitalized frame fails them with the validation
errors, while the storage accessor reads the capitalized `Close` column of
the same frame. -/
theorem C10_case_sensitive_columns (df : DataFrame) (selfLen : ℕ) (symbol : String) (now : ℚ)
    (st : Store) (t : ℚ) (hv lv cv vv : ℚ)
    (hne : df.rows ≠ [])
    (hcols : df.cols = ["High", "Low", "Close", "Volume"]) :
    calculate_vwap df
        = Except.error ("Missing required columns: "
            ++ pyStrListRepr ["high", "low", "close", "volume"])
      ∧ detect_signals selfLen df symbol now
          = Except.error ("Missing required column: " ++ sq ++ "close" ++ sq)
      ∧ (df.rows.getLast? = some (t, [hv, lv, cv, vv]) → lookupSym st symbol = some df →
          get_latest_price st symbol = some cv) := by
  obtain ⟨hasDT, cols, rows⟩ := df
  simp only at hcols
  subst hcols
  cases rows with
  | nil => exact absurd rfl hne
  | cons r rest =>
    refine ⟨rfl, rfl, ?_⟩
    intro hlast hlook
    rw [get_latest_price_eq st symbol _ hlook, hlast]
    rfl

/-- Witness for C10 at a concrete capitalized one-bar frame. -/
theorem C10_case_sensitive_columns_witness :
    calculate_vwap dfCapCols
        = Except.error ("Missing required columns: "
            ++ pyStrListRepr ["high", "low", "close", "volume"])
      ∧ get_latest_price [("EURUSD", dfCapCols)] "EURUSD" = some 1 := by
  have h := C10_case_sensitive_columns dfCapCols 1 "EURUSD" 0 [("EURUSD", dfCapCols)]
    0 2 1 1 3 (by decide) rfl
  exact ⟨h.1, h.2.2 rfl rfl⟩

/-! ## Confidence scoring (C8) -/

/-- Every signal the detection loop accumulates satisfies any property that
all `mkSignal` records satisfy. -/
theorem detect_foldl_shape (symbol : String) (df : DataFrame) (now : ℚ)
    (z e : List (Option ℚ)) (P : Signal → Prop)
    (hP : ∀ ty i cz ce pz pe, P (mkSignal symbol df now ty i cz ce pz pe)) :
    ∀ (is : List ℕ) (acc : List Signal), (∀ s ∈ acc, P s) →
      ∀ s ∈ is.foldl (detectStep symbol df now z e) acc, P s := by
  intro is
  induction is with
  | nil => intro acc hacc; simpa using hacc
  | cons i t ih =>
    intro acc hacc
    rw [List.foldl_cons]
    refine ih (detectStep symbol df now z e acc i) ?_
    intro s hs
    unfold detectStep at hs
    split at hs
    · split at hs
      · rcases List.mem_append.mp hs with h | h
        · exact hacc s h
        · rcases List.mem_singleton.mp h with rfl; apply hP
      · split at hs
        · rcases List.mem_append.mp hs with h | h
          · exact hacc s h
          · rcases List.mem_singleton.mp h with rfl; apply hP
        · exact hacc s hs
    · exact hacc s hs

theorem signalConfidence_bounds (cz ce pz pe : ℚ) :
    0 ≤ signalConfidence cz ce pz pe ∧ signalConfidence cz ce pz pe ≤ 1 := by
  unfold signalConfidence
  constructor
  · exact le_min (le_max_right _ 0) zero_le_one
  · exact min_le_right _ 1

/-- Counterexample to C8 as stated: on closes `[1, 1, -9]` with length 2 the
detector emits one SELL whose zlma/ema average is negative; the code stores
confidence 0.5 for it, while the formula of the claim (divide by the average
whenever it is nonzero) yields 0. -/
theorem C8_claim_counterexample :
    detect_signals 2 dfConfCex "X" 99
        = Except.ok [{ symbol := "X", signal_type := "SELL", price := -9, timestamp := 2,
                       zlma_value := -71/9, ema_value := -17/3, confidence := 1/2 }]
      ∧ claimConfidence (-71/9) (-17/3) 1 1 = 0
      ∧ calculate_zlma 2 dfConfCex none = Except.ok [1, 1, -71/9]
      ∧ calculate_ema 2 dfConfCex none = Except.ok [1, 1, -17/3]
      ∧ ((1 : ℚ)/2 ≠ 0) := by
  refine ⟨?_, ?_, ?_, ?_, by norm_num⟩
  · norm_num [detect_signals, calculate_zlma, calculate_ema, dfConfCex, tempCloseFrame,
      colSeries, cellVal, alphaOf, ewmMean, ewmFrom, List.range', detectStep, mkSignal,
      signalConfidence, indexTs]
  · norm_num [claimConfidence, abs, min_def, max_def]
  · norm_num [calculate_zlma, calculate_ema, dfConfCex, tempCloseFrame, colSeries, cellVal,
      alphaOf, ewmMean, ewmFrom]
  · norm_num [calculate_ema, dfConfCex, colSeries, cellVal, alphaOf, ewmMean, ewmFrom]

/-- C8 (amended): the confidence of every emitted signal follows the claimed
procedure with the separation percentage taken as 0 unless the average is
strictly positive and the decisiveness term applied only when the previous
separation percentage is strictly positive; every emitted confidence lies in
`[0, 1]`. -/
theorem C8_confidence_amended (selfLen : ℕ) (df : DataFrame) (symbol : String) (now : ℚ)
    (sigs : List Signal) (h : detect_signals selfLen df symbol now = Except.ok sigs) :
    (∀ cz ce pz pe, signalConfidence cz ce pz pe = amendedConfidence cz ce pz pe)
      ∧ ∀ s ∈ sigs,
          (∃ pz pe, s.confidence = amendedConfidence s.zlma_value s.ema_value pz pe)
          ∧ 0 ≤ s.confidence ∧ s.confidence ≤ 1 := by
  refine ⟨fun cz ce pz pe => rfl, ?_⟩
  unfold detect_signals at h
  split at h
  · exact absurd h (by simp)
  · split at h
    · exact absurd h (by simp)
    · split at h
      · exact absurd h (by simp)
      · split at h
        · exact absurd h (by simp)
        · split at h
          · exact absurd h (by simp)
          · rcases Except.ok.injEq .. ▸ h with rfl
            refine detect_foldl_shape symbol df now _ _ _ ?_ _ [] (by simp)
            intro ty i cz ce pz pe
            refine ⟨⟨pz, pe, rfl⟩, ?_⟩
            exact signalConfidence_bounds cz ce pz pe

/-- Witness for C8 (amended) at the concrete frame of the counterexample. -/
theorem C8_confidence_amended_witness :
    (∃ pz pe, ({ symbol := "X", signal_type := "SELL", price := -9, timestamp := 2,
                 zlma_value := -71/9, ema_value := -17/3,
                 confidence := 1/2 : Signal }).confidence
        = amendedConfidence (-71/9) (-17/3) pz pe)
      ∧ (0 : ℚ) ≤ 1/2 ∧ (1/2 : ℚ) ≤ 1 := by
  have h := (C8_confidence_amended 2 dfConfCex "X" 99
    [{ symbol := "X", signal_type := "SELL", price := -9, timestamp := 2,
       zlma_value := -71/9, ema_value := -17/3, confidence := 1/2 : Signal }]
    (by norm_num [detect_signals, calculate_zlma, calculate_ema, dfConfCex, tempCloseFrame,
      colSeries, cellVal, alphaOf, ewmMean, ewmFrom, List.range', detectStep, mkSignal,
      signalConfidence, indexTs])).2
    { symbol := "X", signal_type := "SELL", price := -9, timestamp := 2,
      zlma_value := -71/9, ema_value := -17/3, confidence := 1/2 : Signal }
    (List.mem_singleton.mpr rfl)
  exact ⟨h.1, h.2.1, h.2.2⟩

/-! ## Crossover detection (C1) -/

/-- One step of the detection loop appends exactly the signal the crossover
rule produces at that index. -/
theorem detectStep_eq (symbol : String) (df : DataFrame) (now : ℚ)
    (z e : List (Option ℚ)) (acc : List Signal) (i : ℕ) :
    detectStep symbol df now z e acc i
      = acc ++ (crossSignalAt symbol df now z e i).toList := by
  unfold detectStep crossSignalAt
  cases hcz : z.getD i none <;> cases hce : e.getD i none <;>
    cases hpz : z.getD (i-1) none <;> cases hpe : e.getD (i-1) none <;> simp
  split_ifs <;> simp

/-- The detection loop collects, in scan order, the signals of the crossover
rule. -/
theorem detect_foldl_filterMap (symbol : String) (df : DataFrame) (now : ℚ)
    (z e : List (Option ℚ)) (is : List ℕ) :
    ∀ acc, is.foldl (detectStep symbol df now z e) acc
      = acc ++ is.filterMap (crossSignalAt symbol df now z e) := by
  induction is with
  | nil => intro acc; simp
  | cons i t ih =>
    intro acc
    rw [List.foldl_cons, detectStep_eq, ih, List.filterMap_cons]
    cases h : crossSignalAt symbol df now z e i <;> simp

/-- C1: on a frame with a close column and at least `ema_length` rows,
`detect_signals` succeeds and returns exactly the signals of the crossover
rule, scanned at indices 1 to length-1 in order: an index is skipped when
any of the four indicator values is undefined, a BUY is emitted exactly when
`zlma[i-1] <= ema[i-1]` and `zlma[i] > ema[i]`, a SELL exactly when
`zlma[i-1] >= ema[i-1]` and `zlma[i] < ema[i]`; every emitted BUY has
`zlma_value > ema_value` (and every SELL the converse), two consecutive
identical value pairs emit nothing, and when no crossover occurs the result
is the empty list, not an error. -/
theorem C1_detect_signals_crossovers (selfLen : ℕ) (df : DataFrame) (symbol : String)
    (now : ℚ) (hne : df.rows ≠ []) (hcl : df.cols.contains "close" = true)
    (hl : 0 < selfLen) (hlen : selfLen ≤ df.rows.length) :
    ∃ zl el,
      calculate_zlma selfLen df none = Except.ok zl
      ∧ calculate_ema selfLen df none = Except.ok el
      ∧ detect_signals selfLen df symbol now
          = Except.ok (detectSpecList symbol df now (zl.map some) (el.map some))
      ∧ (∀ s ∈ detectSpecList symbol df now (zl.map some) (el.map some),
          (s.signal_type = "BUY" → s.zlma_value > s.ema_value)
          ∧ (s.signal_type = "SELL" → s.zlma_value < s.ema_value))
      ∧ ((∀ i ∈ List.range' 1 (df.rows.length - 1),
            crossSignalAt symbol df now (zl.map some) (el.map some) i = none) →
          detect_signals selfLen df symbol now = Except.ok [])
      ∧ (∀ i, (zl.map some).getD (i-1) none = (el.map some).getD (i-1) none →
          (zl.map some).getD i none = (el.map some).getD i none →
          crossSignalAt symbol df now (zl.map some) (el.map some) i = none) := by
  have h1 : df.rows.isEmpty = false := by
    cases h : df.rows with
    | nil => exact absurd h hne
    | cons a t => rfl
  have hema := calculate_ema_ok selfLen df none hne hcl (by simpa using hl)
  have hzlma := calculate_zlma_ok selfLen df none hne hcl (by simpa using hl)
  have hmem : "close" ∈ df.cols := by simpa using hcl
  refine ⟨_, _, hzlma, hema, ?_, ?_, ?_, ?_⟩
  · unfold detect_signals
    rw [if_neg (by simp [h1]), if_neg (by simp [hmem]), if_neg (by omega)]
    simp only [hema, hzlma]
    rw [detect_foldl_filterMap]
    rfl
  · intro s hs
    rcases List.mem_filterMap.mp hs with ⟨i, _, heq⟩
    unfold crossSignalAt at heq
    split at heq
    · split at heq
      · rcases Option.some.injEq .. ▸ heq with rfl
        refine ⟨fun _ => ?_, fun hty => ?_⟩
        · simpa [mkSignal] using ‹_ ≤ _ ∧ _ > _›.2
        · exact absurd hty (by simp [mkSignal])
      · split at heq
        · rcases Option.some.injEq .. ▸ heq with rfl
          refine ⟨fun hty => ?_, fun _ => ?_⟩
          · exact absurd hty (by simp [mkSignal])
          · simpa [mkSignal] using ‹_ ≥ _ ∧ _ < _›.2
        · exact absurd heq (by simp)
    · exact absurd heq (by simp)
  · intro hnone
    unfold detect_signals
    rw [if_neg (by simp [h1]), if_neg (by simp [hmem]), if_neg (by omega)]
    simp only [hema, hzlma]
    rw [detect_foldl_filterMap]
    rw [List.filterMap_eq_nil_iff.mpr hnone]
    rfl
  · intro i hprev hcur
    unfold crossSignalAt
    rw [← hprev, ← hcur]
    cases hz1 : (ewmMean (alphaOf (Option.getD none selfLen))
        (List.zipWith (fun c e => c + (c - e)) (colSeries df "close")
          (ewmMean (alphaOf (Option.getD none selfLen)) (colSeries df "close"))) |>.map
            some).getD (i-1) none <;>
      cases hz2 : (ewmMean (alphaOf (Option.getD none selfLen))
        (List.zipWith (fun c e => c + (c - e)) (colSeries df "close")
          (ewmMean (alphaOf (Option.getD none selfLen)) (colSeries df "close"))) |>.map
            some).getD i none <;>
      simp

/-- Witness for C1 at the crossover check frame of the spec. -/
theorem C1_detect_signals_crossovers_witness :
    ∃ zl el,
      calculate_zlma 3 dfCross none = Except.ok zl
      ∧ calculate_ema 3 dfCross none = Except.ok el
      ∧ detect_signals 3 dfCross "EURUSD" 0
          = Except.ok (detectSpecList "EURUSD" dfCross 0 (zl.map some) (el.map some))
      ∧ (∀ s ∈ detectSpecList "EURUSD" dfCross 0 (zl.map some) (el.map some),
          (s.signal_type = "BUY" → s.zlma_value > s.ema_value)
          ∧ (s.signal_type = "SELL" → s.zlma_value < s.ema_value))
      ∧ ((∀ i ∈ List.range' 1 (dfCross.rows.length - 1),
            crossSignalAt "EURUSD" dfCross 0 (zl.map some) (el.map some) i = none) →
          detect_signals 3 dfCross "EURUSD" 0 = Except.ok [])
      ∧ (∀ i, (zl.map some).getD (i-1) none = (el.map some).getD (i-1) none →
          (zl.map some).getD i none = (el.map some).getD i none →
          crossSignalAt "EURUSD" dfCross 0 (zl.map some) (el.map some) i = none) :=
  C1_detect_signals_crossovers 3 dfCross "EURUSD" 0 (by decide) (by decide)
    (by decide) (by decide)

/-! ## Storage lemmas (C5, C6) -/

theorem mem_dedupKeepLast (l : List (ℚ × List ℚ)) :
    ∀ x ∈ dedupKeepLast l, x ∈ l := by
  induction l with
  | nil => simp [dedupKeepLast]
  | cons r t ih =>
    intro x hx
    unfold dedupKeepLast at hx
    split at hx
    · exact List.mem_cons_of_mem r (ih x hx)
    · rcases List.mem_cons.mp hx with rfl | h
      · exact List.mem_cons_self x t
      · exact List.mem_cons_of_mem r (ih x h)

theorem nodup_ts_dedupKeepLast (l : List (ℚ × List ℚ)) :
    ((dedupKeepLast l).map (·.1)).Nodup := by
  induction l with
  | nil => simp [dedupKeepLast]
  | cons r t ih =>
    unfold dedupKeepLast
    split
    · exact ih
    · rename_i hany
      rw [List.map_cons, List.nodup_cons]
      refine ⟨?_, ih⟩
      intro hmem
      rcases List.mem_map.mp hmem with ⟨x, hx, hts⟩
      have hx' := mem_dedupKeepLast t x hx
      exact hany (List.any_eq_true.mpr ⟨x, hx', by simp [hts]⟩)

theorem sortByTs_perm (rows : List (ℚ × List ℚ)) : (sortByTs rows).Perm rows :=
  List.perm_insertionSort _ rows

theorem sortByTs_sorted (rows : List (ℚ × List ℚ)) :
    List.Pairwise (fun a b => a.1 ≤ b.1) (sortByTs rows) := by
  have h := List.sorted_insertionSort (fun (a b : ℚ × List ℚ) => a.1 ≤ b.1) rows
  exact h

theorem pairwise_lt_of_le_nodup (rows : List (ℚ × List ℚ))
    (hle : List.Pairwise (fun a b => a.1 ≤ b.1) rows)
    (hnd : (rows.map (·.1)).Nodup) :
    List.Pairwise (fun (a b : ℚ × List ℚ) => a.1 < b.1) rows := by
  have hne : List.Pairwise (fun (a b : ℚ × List ℚ) => a.1 ≠ b.1) rows :=
    List.pairwise_map.mp hnd
  exact (hle.and hne).imp (fun h => lt_of_le_of_ne h.1 h.2)

/-- The merged rows a store into an existing symbol produces satisfy the
ordering invariant. -/
theorem merged_strict (old new : List (ℚ × List ℚ)) :
    List.Pairwise (fun (a b : ℚ × List ℚ) => a.1 < b.1)
      (sortByTs (dedupKeepLast (old ++ new))) := by
  refine pairwise_lt_of_le_nodup _ (sortByTs_sorted _) ?_
  have hperm : ((sortByTs (dedupKeepLast (old ++ new))).map (·.1)).Perm
      ((dedupKeepLast (old ++ new)).map (·.1)) :=
    (sortByTs_perm (dedupKeepLast (old ++ new))).map (·.1)
  exact hperm.nodup_iff.mpr (nodup_ts_dedupKeepLast (old ++ new))

/-- Lookup on a cons whose head key matches. -/
theorem lookupSym_cons_pos (a : String × DataFrame) (t : Store) (sym : String)
    (h : (a.1 == sym) = true) : lookupSym (a :: t) sym = some a.2 := by
  unfold lookupSym
  rw [@List.find?_cons_of_pos _ (fun e => e.1 == sym) a t h]
  rfl

/-- Lookup on a cons headed by an explicit pair whose key matches. -/
theorem lookupSym_pair_pos (k : String) (v : DataFrame) (t : Store) (sym : String)
    (h : (k == sym) = true) : lookupSym ((k, v) :: t) sym = some v := by
  unfold lookupSym
  rw [@List.find?_cons_of_pos _ (fun e => e.1 == sym) (k, v) t h]
  rfl

/-- Lookup on a cons headed by an explicit pair whose key differs. -/
theorem lookupSym_pair_neg (k : String) (v : DataFrame) (t : Store) (sym : String)
    (h : ¬ (k == sym) = true) : lookupSym ((k, v) :: t) sym = lookupSym t sym := by
  unfold lookupSym
  rw [@List.find?_cons_of_neg _ (fun e => e.1 == sym) (k, v) t h]

/-- Lookup on a cons whose head key differs. -/
theorem lookupSym_cons_neg (a : String × DataFrame) (t : Store) (sym : String)
    (h : ¬ (a.1 == sym) = true) : lookupSym (a :: t) sym = lookupSym t sym := by
  unfold lookupSym
  rw [@List.find?_cons_of_neg _ (fun e => e.1 == sym) a t h]

/-- A lookup after an in-place value update finds the new value or a value
already present. -/
theorem lookup_update_cases (st : Store) (sym : String) (newdf : DataFrame) (q : String)
    (qdf : DataFrame) :
    lookupSym (updateSym st sym newdf) q = some qdf →
      qdf = newdf ∨ lookupSym st q = some qdf := by
  induction st with
  | nil => intro h; simp [lookupSym, updateSym] at h
  | cons e t ih =>
    intro h
    rw [lookupSym, updateSym, List.map_cons] at h
    by_cases heq : (e.1 == q) = true
    · have hpa : ((if (e.1 == sym) = true then (e.1, newdf) else e).1 == q) = true := by
        split <;> exact heq
      rw [List.find?_cons_of_pos (p := fun (e : String × DataFrame) => e.1 == q) _ hpa] at h
      by_cases hes : (e.1 == sym) = true
      · left
        rw [if_pos hes] at h
        exact (Option.some.inj h).symm
      · right
        rw [if_neg hes] at h
        rw [lookupSym, List.find?_cons_of_pos (p := fun (e : String × DataFrame) => e.1 == q) _ heq]
        exact h
    · have hpa : ¬ ((if (e.1 == sym) = true then (e.1, newdf) else e).1 == q) = true := by
        split <;> exact heq
      rw [List.find?_cons_of_neg (p := fun (e : String × DataFrame) => e.1 == q) _ hpa] at h
      rcases ih h with hnew | hold
      · exact Or.inl hnew
      · right
        rw [lookupSym, List.find?_cons_of_neg (p := fun (e : String × DataFrame) => e.1 == q) _ heq]
        exact hold

/-- Updating a present symbol makes its lookup return the new frame. -/
theorem lookup_update_self (st : Store) (sym : String) (newdf : DataFrame)
    (h : (lookupSym st sym).isSome) :
    lookupSym (updateSym st sym newdf) sym = some newdf := by
  induction st with
  | nil => simp [lookupSym] at h
  | cons e t ih =>
    by_cases hes : (e.1 == sym) = true
    · have hpa : ((if (e.1 == sym) = true then (e.1, newdf) else e).1 == sym) = true := by
        split <;> exact hes
      rw [lookupSym, updateSym, List.map_cons,
        List.find?_cons_of_pos (p := fun (e : String × DataFrame) => e.1 == sym) _ hpa, if_pos hes]
      rfl
    · have hpa : ¬ ((if (e.1 == sym) = true then (e.1, newdf) else e).1 == sym) = true := by
        split <;> exact hes
      rw [lookupSym, List.find?_cons_of_neg (p := fun (e : String × DataFrame) => e.1 == sym) _ hes] at h
      rw [lookupSym, updateSym, List.map_cons,
        List.find?_cons_of_neg (p := fun (e : String × DataFrame) => e.1 == sym) _ hpa]
      exact ih h

theorem lookupSym_append_single (st : Store) (sym : String) (df : DataFrame) (q : String) :
    lookupSym (st ++ [(sym, df)]) q
      = (lookupSym st q).or (if sym = q then some df else none) := by
  unfold lookupSym
  rw [List.find?_append]
  cases h : List.find? (fun e => e.1 == q) st with
  | none =>
    by_cases hq : sym = q
    · simp [List.find?, hq]
    · have hb : ((sym, df).1 == q) = false := by simpa using hq
      simp [List.find?, hb, hq]
  | some e => simp

/-- When a symbol is absent from the store its key is not among the stored
keys. -/
theorem not_contains_of_lookup_none (st : Store) (sym : String)
    (h : lookupSym st sym = none) : ((st.map (·.1)).contains sym) = false := by
  induction st with
  | nil => rfl
  | cons e t ih =>
    by_cases he : (e.1 == sym)
    · rw [lookupSym, List.find?_cons_of_pos (p := fun (e : String × DataFrame) => e.1 == sym) _ he] at h
      simp at h
    · rw [lookupSym, List.find?_cons_of_neg (p := fun (e : String × DataFrame) => e.1 == sym) _ he] at h
      have ht := ih h
      have hne : ¬ sym = e.1 := by
        intro hh
        rw [hh] at he
        simp at he
      simp [List.contains_cons, hne, ht]
      simpa using ht

/-- One store operation preserves the ordering invariant provided the symbol
is already present or the batch is strictly sorted. -/
theorem store_preserves_inv (st : Store) (sym : String) (df : DataFrame)
    (hinv : InvStore st)
    (hop : (st.map (·.1)).contains sym = true ∨ StrictRows df) :
    InvStore (store_data st sym df) := by
  by_cases hemp : df.rows.isEmpty = true
  · have hst : store_data st sym df = st := by
      unfold store_data; rw [if_pos hemp]
    rw [hst]; exact hinv
  · cases hl : lookupSym st sym with
    | some existing =>
      have hst : store_data st sym df
          = updateSym st sym
              { existing with rows := sortByTs (dedupKeepLast (existing.rows ++ df.rows)) } := by
        unfold store_data; rw [if_neg hemp, hl]
      rw [hst]
      intro q qdf hq
      rcases lookup_update_cases st sym _ q qdf hq with rfl | hold
      · exact merged_strict existing.rows df.rows
      · exact hinv q qdf hold
    | none =>
      have hst : store_data st sym df = st ++ [(sym, df)] := by
        unfold store_data; rw [if_neg hemp, hl]
      rw [hst]
      intro q qdf hq
      rw [lookupSym_append_single] at hq
      cases hlq : lookupSym st q with
      | some found =>
        rw [hlq] at hq
        rw [show (some found).or (if sym = q then some df else none) = some found from rfl] at hq
        have hfq := Option.some.inj hq
        rw [← hfq]
        exact hinv q found hlq
      | none =>
        rw [hlq] at hq
        rw [show (Option.none).or (if sym = q then some df else none)
            = (if sym = q then some df else none) from rfl] at hq
        split at hq
        · have := Option.some.inj hq
          rw [← this]
          rcases hop with hc | hs
          · rw [not_contains_of_lookup_none st sym hl] at hc
            exact absurd hc (by simp)
          · exact hs
        · exact Option.noConfusion hq

/-- Running a well-formed sequence of stores preserves the invariant. -/
theorem runStores_inv (ops : List (String × DataFrame)) :
    ∀ st, InvStore st → OpsOk st ops → InvStore (runStores st ops) := by
  induction ops with
  | nil => intro st h _; exact h
  | cons op t ih =>
    intro st h hops
    exact ih (store_data st op.1 op.2) (store_preserves_inv st op.1 op.2 h hops.1) hops.2

/-- A successful query returns the stored frame or a tail of its rows. -/
theorem get_historical_data_cases (st : Store) (sym : String) (periods : ℕ)
    (df : DataFrame) (h : get_historical_data st sym periods = some df) :
    ∃ df0, lookupSym st sym = some df0
      ∧ (df = df0 ∨ df.rows = df0.rows.drop (df0.rows.length - periods)) := by
  cases hl : lookupSym st sym with
  | none =>
    unfold get_historical_data at h
    rw [hl] at h
    exact Option.noConfusion h
  | some df0 =>
    have hform : get_historical_data st sym periods
        = (if df0.rows.isEmpty then none
           else if df0.rows.length ≤ periods then some df0
           else some { df0 with rows := df0.rows.drop (df0.rows.length - periods) }) := by
      unfold get_historical_data
      rw [hl]
    rw [hform] at h
    refine ⟨df0, rfl, ?_⟩
    by_cases hemp : df0.rows.isEmpty = true
    · rw [if_pos hemp] at h; exact Option.noConfusion h
    · rw [if_neg hemp] at h
      by_cases hlen : df0.rows.length ≤ periods
      · rw [if_pos hlen] at h
        exact Or.inl (Option.some.inj h).symm
      · rw [if_neg hlen] at h
        have hh := Option.some.inj h
        rw [← hh]
        exact Or.inr rfl

/-- Counterexample to C5 as stated: an instrument-creating batch is stored
as passed, so an unsorted very first batch is returned unsorted by the
query. -/
theorem C5_claim_counterexample :
    get_historical_data (store_data [] "EURUSD" dfUnsorted) "EURUSD" 100 = some dfUnsorted
      ∧ ¬ List.Pairwise (fun (a b : ℚ × List ℚ) => a.1 < b.1) dfUnsorted.rows := by
  constructor
  · rfl
  · intro h
    rw [dfUnsorted] at h
    rcases List.pairwise_cons.mp h with ⟨h1, _⟩
    have h2 : ((2 : ℚ), ([5] : List ℚ)).1 < ((1 : ℚ), ([4] : List ℚ)).1 :=
      h1 _ (List.mem_singleton.mpr rfl)
    norm_num at h2

/-- C5 (amended): provided every instrument-creating batch (in particular
the very first one stored for an instrument) is strictly sorted by
timestamp with no duplicates, any store sequence keeps every queried frame
strictly sorted by ascending timestamp and free of duplicate timestamps;
merges into an existing instrument need no such condition since they
deduplicate and re-sort. -/
theorem C5_store_query_sorted (st : Store) (ops : List (String × DataFrame))
    (hinv : InvStore st) (hops : OpsOk st ops) :
    ∀ sym periods df, get_historical_data (runStores st ops) sym periods = some df →
      List.Pairwise (fun (a b : ℚ × List ℚ) => a.1 < b.1) df.rows := by
  intro sym periods df h
  rcases get_historical_data_cases _ sym periods df h with ⟨df0, hl, hcase⟩
  have hs : StrictRows df0 := runStores_inv ops st hinv hops sym df0 hl
  rcases hcase with rfl | hrows
  · exact hs
  · rw [hrows]
    exact List.Pairwise.sublist (List.drop_sublist _ _) hs

/-- Witness for C5 (amended): an empty store, one sorted batch, one query. -/
theorem C5_store_query_sorted_witness :
    List.Pairwise (fun (a b : ℚ × List ℚ) => a.1 < b.1) dfSorted.rows :=
  C5_store_query_sorted [] [("EURUSD", dfSorted)]
    (fun sym df h => absurd h (by simp [lookupSym]))
    ⟨Or.inr (by norm_num [StrictRows, dfSorted]), trivial⟩
    "EURUSD" 100 dfSorted rfl

/-! ## Last-write-wins merge (C6) -/

/-- Deduplication keeping the later row leaves, at each timestamp, exactly
the last row the concatenation carried at that timestamp. -/
theorem filter_dedupKeepLast (t0 : ℚ) (l : List (ℚ × List ℚ)) :
    (dedupKeepLast l).filter (fun r => r.1 == t0)
      = ((l.filter (fun r => r.1 == t0)).getLast?).toList := by
  induction l with
  | nil => rfl
  | cons r t ih =>
    unfold dedupKeepLast
    split
    · rename_i hany
      by_cases hr : (r.1 == t0) = true
      · rcases List.any_eq_true.mp hany with ⟨x, hx, hbeq⟩
        have hx0 : (x.1 == t0) = true := by
          have h1 : x.1 = r.1 := by simpa using hbeq
          have h2 : r.1 = t0 := by simpa using hr
          simp [h1, h2]
        have hne2 : t.filter (fun r => r.1 == t0) ≠ [] :=
          List.ne_nil_of_mem (List.mem_filter.mpr ⟨hx, hx0⟩)
        rw [List.filter_cons_of_pos (by exact hr)]
        cases hft : t.filter (fun r => r.1 == t0) with
        | nil => exact absurd hft hne2
        | cons b bt =>
          rw [List.getLast?_cons_cons, ← hft, ih]
      · rw [List.filter_cons_of_neg (by exact hr)]
        exact ih
    · rename_i hany
      by_cases hr : (r.1 == t0) = true
      · have hft : t.filter (fun r => r.1 == t0) = [] := by
          rw [List.filter_eq_nil_iff]
          intro x hx hxp
          apply hany
          refine List.any_eq_true.mpr ⟨x, hx, ?_⟩
          have h1 : x.1 = t0 := by simpa using hxp
          have h2 : r.1 = t0 := by simpa using hr
          simp [h1, h2]
        rw [List.filter_cons_of_pos (by exact hr), List.filter_cons_of_pos (by exact hr),
          ih, hft]
        rfl
      · rw [List.filter_cons_of_neg (by exact hr), List.filter_cons_of_neg (by exact hr)]
        exact ih

/-- Counterexample to C6 as stated: the very first batch for an instrument
is stored as passed, so storing the same bar twice in one batch leaves two
rows at that timestamp. -/
theorem C6_claim_counterexample :
    get_historical_data (store_data [] "EURUSD" dfDupBatch) "EURUSD" 100 = some dfDupBatch
      ∧ (dfDupBatch.rows.filter (fun r => r.1 == 1)).length = 2 :=
  ⟨rfl, rfl⟩

/-- C6 (amended): when the instrument already has stored data, a store is
last-write-wins — the merged frame keeps, at every timestamp, exactly the
last occurrence the concatenation of old rows and incoming batch carried
(so re-storing a bar leaves one copy with the later field values) — and the
merged rows are re-sorted by timestamp. On the instrument-creating first
batch no merge runs and intra-batch duplicates survive. -/
theorem C6_last_write_wins (st : Store) (sym : String) (f1 df2 : DataFrame)
    (h : lookupSym st sym = some f1) (hne : df2.rows ≠ []) :
    ∃ f', lookupSym (store_data st sym df2) sym = some f'
      ∧ f'.rows = sortByTs (dedupKeepLast (f1.rows ++ df2.rows))
      ∧ (∀ t : ℚ, f'.rows.filter (fun r => r.1 == t)
          = (((f1.rows ++ df2.rows).filter (fun r => r.1 == t)).getLast?).toList)
      ∧ List.Pairwise (fun (a b : ℚ × List ℚ) => a.1 ≤ b.1) f'.rows := by
  have hemp : df2.rows.isEmpty = false := by
    cases hh : df2.rows with
    | nil => exact absurd hh hne
    | cons a t => rfl
  have hst : store_data st sym df2
      = updateSym st sym
          { f1 with rows := sortByTs (dedupKeepLast (f1.rows ++ df2.rows)) } := by
    unfold store_data
    rw [if_neg (by simp [hemp]), h]
  refine ⟨{ f1 with rows := sortByTs (dedupKeepLast (f1.rows ++ df2.rows)) },
    ?_, rfl, ?_, sortByTs_sorted _⟩
  · rw [hst]
    exact lookup_update_self st sym _ (by rw [h]; rfl)
  · intro t
    have hperm := (sortByTs_perm (dedupKeepLast (f1.rows ++ df2.rows))).filter
      (fun r => r.1 == t)
    rw [filter_dedupKeepLast] at hperm
    cases hcase : (((f1.rows ++ df2.rows).filter (fun r => r.1 == t)).getLast?) with
    | none =>
      rw [hcase] at hperm
      exact List.Perm.eq_nil hperm
    | some b =>
      rw [hcase] at hperm
      exact List.perm_singleton.mp (by simpa using hperm)

/-- Witness for C6 (amended): the same timestamp stored twice in successive
calls keeps only the later bar. -/
theorem C6_last_write_wins_witness :
    ∃ f', lookupSym (store_data (store_data [] "EURUSD" dfBarA) "EURUSD" dfBarB) "EURUSD"
        = some f'
      ∧ f'.rows = sortByTs (dedupKeepLast (dfBarA.rows ++ dfBarB.rows))
      ∧ (∀ t : ℚ, f'.rows.filter (fun r => r.1 == t)
          = (((dfBarA.rows ++ dfBarB.rows).filter (fun r => r.1 == t)).getLast?).toList)
      ∧ List.Pairwise (fun (a b : ℚ × List ℚ) => a.1 ≤ b.1) f'.rows :=
  C6_last_write_wins (store_data [] "EURUSD" dfBarA) "EURUSD" dfBarA dfBarB rfl
    (by decide)

/-! ## Retention sweep (C9) -/

/-- Unfolding of the eviction sweep over the first stored symbol. -/
theorem cleanup_cons (e : String × DataFrame) (t : Store) (now retention : ℚ) :
    cleanup_old_data (e :: t) now retention
      = (if e.2.rows.isEmpty then cleanup_old_data t now retention
         else if (e.2.rows.filter (fun r => now - retention ≤ r.1)).isEmpty then
           cleanup_old_data t now retention
         else (e.1, { e.2 with rows := e.2.rows.filter (fun r => now - retention ≤ r.1) })
           :: cleanup_old_data t now retention) := by
  unfold cleanup_old_data
  simp only [List.filterMap_cons]
  by_cases h1 : e.2.rows.isEmpty
  · rw [if_pos h1, if_pos h1]
  · rw [if_neg h1, if_neg h1]
    by_cases h2 : (e.2.rows.filter (fun r => now - retention ≤ r.1)).isEmpty
    · rw [if_pos h2, if_pos h2]
    · rw [if_neg h2, if_neg h2]

/-- Every symbol surviving the sweep was present before it. -/
theorem statsSymbols_cleanup_subset (st : Store) (now retention : ℚ) :
    ∀ s ∈ statsSymbols (cleanup_old_data st now retention), s ∈ st.map (·.1) := by
  induction st with
  | nil => intro s hs; simp [statsSymbols, cleanup_old_data] at hs
  | cons e t ih =>
    intro s hs
    rw [cleanup_cons] at hs
    split at hs
    · exact List.mem_cons_of_mem _ (ih s hs)
    · split at hs
      · exact List.mem_cons_of_mem _ (ih s hs)
      · rcases List.mem_cons.mp hs with rfl | hs'
        · exact List.mem_cons_self _ _
        · exact List.mem_cons_of_mem _ (ih s hs')

/-- After the sweep every remaining bar is at or after the cutoff. -/
theorem cleanup_rows_recent (st : Store) (now retention : ℚ) :
    ∀ sym df, lookupSym (cleanup_old_data st now retention) sym = some df →
      ∀ r ∈ df.rows, now - retention ≤ r.1 := by
  induction st with
  | nil => intro sym df h; simp [cleanup_old_data, lookupSym] at h
  | cons e t ih =>
    intro sym df h
    rw [cleanup_cons] at h
    split at h
    · exact ih sym df h
    · split at h
      · exact ih sym df h
      · by_cases hk : (e.1 == sym) = true
        · rw [lookupSym_pair_pos _ _ _ _ hk] at h
          have hdf := Option.some.inj h
          intro r hr
          rw [← hdf] at hr
          have := List.mem_filter.mp hr
          exact of_decide_eq_true this.2
        · rw [lookupSym_pair_neg _ _ _ _ hk] at h
          exact ih sym df h

/-- A symbol with surviving bars keeps exactly its filtered rows. -/
theorem cleanup_keeps (st : Store) (now retention : ℚ) :
    ∀ sym df, lookupSym st sym = some df →
      df.rows.filter (fun r => now - retention ≤ r.1) ≠ [] →
      lookupSym (cleanup_old_data st now retention) sym
        = some { df with rows := df.rows.filter (fun r => now - retention ≤ r.1) } := by
  induction st with
  | nil => intro sym df h; simp [lookupSym] at h
  | cons e t ih =>
    intro sym df h hne
    by_cases hk : (e.1 == sym) = true
    · rw [lookupSym_cons_pos _ _ _ hk] at h
      have hdf := Option.some.inj h
      subst hdf
      have hrowsne : e.2.rows ≠ [] := by
        intro hr
        rw [hr] at hne
        exact hne rfl
      have h1 : e.2.rows.isEmpty = false := by
        cases hr : e.2.rows with
        | nil => exact absurd hr hrowsne
        | cons a l => rfl
      have h2 : (e.2.rows.filter (fun r => now - retention ≤ r.1)).isEmpty = false := by
        cases hr : e.2.rows.filter (fun r => now - retention ≤ r.1) with
        | nil => exact absurd hr hne
        | cons a l => rfl
      rw [cleanup_cons, if_neg (by rw [h1]; simp), if_neg (by rw [h2]; simp)]
      rw [lookupSym_pair_pos _ _ _ _ hk]
    · rw [lookupSym_cons_neg _ _ _ hk] at h
      rw [cleanup_cons]
      split
      · exact ih sym df h hne
      · split
        · exact ih sym df h hne
        · rw [lookupSym_pair_neg _ _ _ _ hk]
          exact ih sym df h hne

/-- A symbol whose bars all expired disappears from the stats listing. -/
theorem cleanup_removes (st : Store) (now retention : ℚ)
    (hnd : (st.map (·.1)).Nodup) :
    ∀ sym df, lookupSym st sym = some df →
      df.rows.filter (fun r => now - retention ≤ r.1) = [] →
      sym ∉ statsSymbols (cleanup_old_data st now retention) := by
  induction st with
  | nil => intro sym df h; simp [lookupSym] at h
  | cons e t ih =>
    rw [List.map_cons, List.nodup_cons] at hnd
    intro sym df h hfil
    by_cases hk : (e.1 == sym) = true
    · rw [lookupSym_cons_pos _ _ _ hk] at h
      have hdf := Option.some.inj h
      subst hdf
      have hsym : e.1 = sym := by simpa using hk
      have hdrop : cleanup_old_data (e :: t) now retention
          = cleanup_old_data t now retention := by
        rw [cleanup_cons]
        by_cases h1 : e.2.rows.isEmpty
        · rw [if_pos h1]
        · rw [if_neg h1, if_pos (by rw [hfil]; rfl)]
      rw [hdrop]
      intro hmem
      have := statsSymbols_cleanup_subset t now retention sym hmem
      rw [← hsym] at this
      exact hnd.1 this
    · rw [lookupSym_cons_neg _ _ _ hk] at h
      have hne : sym ≠ e.1 := by
        intro hh
        rw [hh] at hk
        simp at hk
      rw [cleanup_cons]
      split
      · exact ih hnd.2 sym df h hfil
      · split
        · exact ih hnd.2 sym df h hfil
        · intro hmem
          rcases List.mem_cons.mp hmem with heq | hmem'
          · exact hne heq
          · exact ih hnd.2 sym df h hfil hmem'

/-- C9: after an eviction sweep with window `retention`, every remaining bar
of every instrument is at or after `now - retention` (bars strictly older
are absent), an instrument with surviving bars keeps exactly those bars
unchanged and in order, and an instrument left with none disappears from
the stats listing. -/
theorem C9_retention_sweep (st : Store) (now retention : ℚ)
    (hnd : (st.map (·.1)).Nodup) :
    (∀ sym df, lookupSym (cleanup_old_data st now retention) sym = some df →
        ∀ r ∈ df.rows, now - retention ≤ r.1)
      ∧ (∀ sym df, lookupSym st sym = some df →
          df.rows.filter (fun r => now - retention ≤ r.1) ≠ [] →
          lookupSym (cleanup_old_data st now retention) sym
            = some { df with rows := df.rows.filter (fun r => now - retention ≤ r.1) })
      ∧ (∀ sym df, lookupSym st sym = some df →
          df.rows.filter (fun r => now - retention ≤ r.1) = [] →
          sym ∉ statsSymbols (cleanup_old_data st now retention)) :=
  ⟨cleanup_rows_recent st now retention, cleanup_keeps st now retention,
    cleanup_removes st now retention hnd⟩

/-- Witness for C9: a store with one fully expired symbol and one mixed
symbol, retention window 5 ending at time 10. -/
theorem C9_retention_sweep_witness :
    (∀ sym df, lookupSym (cleanup_old_data stRetention 10 5) sym = some df →
        ∀ r ∈ df.rows, (10 : ℚ) - 5 ≤ r.1)
      ∧ (∀ sym df, lookupSym stRetention sym = some df →
          df.rows.filter (fun r => (10 : ℚ) - 5 ≤ r.1) ≠ [] →
          lookupSym (cleanup_old_data stRetention 10 5) sym
            = some { df with rows := df.rows.filter (fun r => (10 : ℚ) - 5 ≤ r.1) })
      ∧ (∀ sym df, lookupSym stRetention sym = some df →
          df.rows.filter (fun r => (10 : ℚ) - 5 ≤ r.1) = [] →
          sym ∉ statsSymbols (cleanup_old_data stRetention 10 5)) :=
  C9_retention_sweep stRetention 10 5 (by decide)

/-! ## Session-anchored VWAP (C3) -/

theorem dedupConsecutive_subset (l : List ℤ) : ∀ k ∈ dedupConsecutive l, k ∈ l := by
  induction l with
  | nil => simp [dedupConsecutive]
  | cons a t ih =>
    intro k hk
    cases t with
    | nil => simpa [dedupConsecutive] using hk
    | cons b t' =>
      unfold dedupConsecutive at hk
      split at hk
      · exact List.mem_cons_of_mem a (ih k hk)
      · rcases List.mem_cons.mp hk with rfl | hk'
        · exact List.mem_cons_self k _
        · exact List.mem_cons_of_mem a (ih k hk')

/-- Collapsing a leading constant block. -/
theorem dedupConsecutive_block (k0 : ℤ) :
    ∀ (m : List ℤ), m ≠ [] → (∀ x ∈ m, x = k0) →
    ∀ (B : List ℤ), (∀ b, B.head? = some b → b ≠ k0) →
      dedupConsecutive (m ++ B) = k0 :: dedupConsecutive B := by
  intro m
  induction m with
  | nil => intro h; exact absurd rfl h
  | cons a m' ih =>
    intro _ hall B hB
    have ha : a = k0 := hall a (List.mem_cons_self a m')
    cases m' with
    | nil =>
      subst ha
      cases B with
      | nil => rfl
      | cons b t =>
        have hb : b ≠ a := hB b rfl
        show dedupConsecutive (a :: b :: t) = a :: dedupConsecutive (b :: t)
        simp only [dedupConsecutive]
        rw [if_neg (fun h => hb h.symm)]
    | cons a2 m'' =>
      have ha2 : a2 = k0 := hall a2 (by simp)
      have hstep : dedupConsecutive ((a :: a2 :: m'') ++ B)
          = dedupConsecutive ((a2 :: m'') ++ B) := by
        show dedupConsecutive (a :: a2 :: (m'' ++ B))
            = dedupConsecutive (a2 :: (m'' ++ B))
        simp only [dedupConsecutive]
        rw [if_pos (by rw [ha, ha2])]
      rw [hstep]
      exact ih (by simp) (fun x hx => hall x (List.mem_cons_of_mem a hx)) B hB

theorem flatMap_congr_mem {α β : Type} (ks : List α) (f g : α → List β)
    (h : ∀ k ∈ ks, f k = g k) : ks.flatMap f = ks.flatMap g := by
  induction ks with
  | nil => rfl
  | cons k t ih =>
    rw [List.flatMap_cons, List.flatMap_cons, h k (List.mem_cons_self k t),
      ih (fun x hx => h x (List.mem_cons_of_mem k hx))]

theorem head_dropWhile_not {α : Type} (p : α → Bool) :
    ∀ (l : List α) (b : α), (l.dropWhile p).head? = some b → ¬ p b = true := by
  intro l
  induction l with
  | nil => intro b h; simp [List.dropWhile] at h
  | cons a t ih =>
    intro b h
    rw [List.dropWhile_cons] at h
    split at h
    · exact ih b h
    · rename_i hpa
      rcases Option.some.inj h with rfl
      exact hpa

/-- The streaming session computation, split at the end of the first
constant-key block: the block accumulates, the remainder restarts fresh. -/
theorem vwapSpecGo_append (k0 : ℤ) :
    ∀ (A : List (ℤ × ℚ × ℚ)), (∀ a ∈ A, a.1 = k0) → (∀ a ∈ A, 0 ≤ a.2.2) →
    ∀ (B : List (ℤ × ℚ × ℚ)), (∀ b, B.head? = some b → b.1 ≠ k0) →
    ∀ (cpv cvol : ℚ), 0 ≤ cvol →
      vwapSpecGo k0 cpv cvol (A ++ B)
        = sessionVwapGo cpv cvol (A.map (·.2)) ++ vwapSpec B := by
  intro A
  induction A with
  | nil =>
    intro _ _ B hB cpv cvol _
    rw [List.nil_append, List.map_nil, sessionVwapGo, List.nil_append]
    cases B with
    | nil => rfl
    | cons b t =>
      obtain ⟨kb, pvb, vb⟩ := b
      have hkb : kb ≠ k0 := hB (kb, pvb, vb) rfl
      rw [vwapSpecGo, vwapSpec, vwapSpecGo]
      rw [if_neg (fun h => hkb h), if_neg (fun h => hkb h)]
      simp
  | cons a A' ih =>
    intro hall hvol B hB cpv cvol hcvol
    obtain ⟨ka, pva, va⟩ := a
    have hka : ka = k0 := hall (ka, pva, va) (List.mem_cons_self _ _)
    subst hka
    have hva : 0 ≤ va := hvol (ka, pva, va) (List.mem_cons_self _ _)
    rw [List.cons_append, vwapSpecGo, if_pos rfl, if_pos rfl, List.map_cons, sessionVwapGo,
      List.cons_append]
    have hemit : (if cvol + va = 0 then none else some ((cpv + pva) / (cvol + va)))
        = (if cvol + va > 0 then some ((cpv + pva) / (cvol + va)) else none) := by
      by_cases hz : cvol + va = 0
      · rw [if_pos hz, if_neg (by rw [hz]; exact lt_irrefl 0)]
      · have : 0 < cvol + va := lt_of_le_of_ne (by linarith) (fun h => hz h.symm)
        rw [if_neg hz, if_pos this]
    rw [hemit, ih (fun x hx => hall x (List.mem_cons_of_mem _ hx))
      (fun x hx => hvol x (List.mem_cons_of_mem _ hx)) B hB (cpv + pva) (cvol + va)
      (by linarith)]

/-- The grouped-and-reassembled VWAP equals the streaming session VWAP when
the session keys are non-decreasing and the volumes are non-negative. -/
theorem groupbyVwap_eq_vwapSpec (n : ℕ) :
    ∀ (L : List (ℤ × ℚ × ℚ)), L.length ≤ n →
      List.Pairwise (fun a b : ℤ => a ≤ b) (L.map (·.1)) →
      (∀ x ∈ L, 0 ≤ x.2.2) →
      groupbyVwap L = vwapSpec L := by
  induction n with
  | zero =>
    intro L hlen _ _
    have : L = [] := List.length_eq_zero.mp (Nat.le_zero.mp hlen)
    subst this
    rfl
  | succ n ih =>
    intro L hlen hsort hvol
    cases hL : L with
    | nil => rfl
    | cons x L' =>
      obtain ⟨k0, pv0, v0⟩ := x
      subst hL
      have hsplit : (k0, pv0, v0) :: L'
          = ((k0, pv0, v0) :: L'.takeWhile (fun r : ℤ × ℚ × ℚ => r.1 == k0))
            ++ L'.dropWhile (fun r : ℤ × ℚ × ℚ => r.1 == k0) := by
        rw [List.cons_append, List.takeWhile_append_dropWhile]
      have hallA : ∀ a ∈ (k0, pv0, v0) :: L'.takeWhile (fun r : ℤ × ℚ × ℚ => r.1 == k0),
          a.1 = k0 := by
        intro a ha
        rcases List.mem_cons.mp ha with rfl | ha'
        · rfl
        · simpa using List.mem_takeWhile_imp ha'
      have hBhead : ∀ b, (L'.dropWhile (fun r : ℤ × ℚ × ℚ => r.1 == k0)).head? = some b →
          b.1 ≠ k0 := by
        intro b hb
        simpa using head_dropWhile_not _ L' b hb
      have hkeys : (((k0, pv0, v0) :: L').map (·.1))
          = (((k0, pv0, v0) :: L'.takeWhile (fun r : ℤ × ℚ × ℚ => r.1 == k0)).map (·.1))
            ++ ((L'.dropWhile (fun r : ℤ × ℚ × ℚ => r.1 == k0)).map (·.1)) := by
        rw [← List.map_append, ← hsplit]
      have hsort' := hkeys ▸ hsort
      have hpw := List.pairwise_append.mp hsort'
      have hBsort : List.Pairwise (fun a b : ℤ => a ≤ b)
          ((L'.dropWhile (fun r : ℤ × ℚ × ℚ => r.1 == k0)).map (·.1)) := hpw.2.1
      have hcross := hpw.2.2
      have hBgt : ∀ kb ∈ (L'.dropWhile (fun r : ℤ × ℚ × ℚ => r.1 == k0)).map (·.1),
          k0 < kb := by
        intro kb hkb
        cases hBc : L'.dropWhile (fun r : ℤ × ℚ × ℚ => r.1 == k0) with
        | nil => rw [hBc] at hkb; simp at hkb
        | cons b t =>
          have hhead : b.1 ≠ k0 := hBhead b (by rw [hBc]; rfl)
          have hk0b : k0 ≤ b.1 := by
            refine hcross k0 (by simp) b.1 ?_
            rw [hBc, List.map_cons]
            exact List.mem_cons_self _ _
          have hb1 : k0 < b.1 := lt_of_le_of_ne hk0b (fun h => hhead h.symm)
          rw [hBc, List.map_cons] at hkb
          rcases List.mem_cons.mp hkb with rfl | hkb'
          · exact hb1
          · have hBsort' := hBsort
            rw [hBc, List.map_cons] at hBsort'
            exact lt_of_lt_of_le hb1 ((List.pairwise_cons.mp hBsort').1 kb hkb')
      have hBne : ∀ b ∈ L'.dropWhile (fun r : ℤ × ℚ × ℚ => r.1 == k0), b.1 ≠ k0 := by
        intro b hb
        have : k0 < b.1 := hBgt b.1 (List.mem_map.mpr ⟨b, hb, rfl⟩)
        exact fun h => absurd (h ▸ this) (lt_irrefl k0)
      have hkeysList : sortedDistinctKeys (((k0, pv0, v0) :: L').map (·.1))
          = k0 :: dedupConsecutive
              ((L'.dropWhile (fun r : ℤ × ℚ × ℚ => r.1 == k0)).map (·.1)) := by
        rw [sortedDistinctKeys, List.Sorted.insertionSort_eq hsort, hkeys]
        refine dedupConsecutive_block k0 _ (by simp) ?_ _ ?_
        · intro x hx
          rcases List.mem_map.mp hx with ⟨a, ha, rfl⟩
          exact hallA a ha
        · intro b hb
          cases hBc : L'.dropWhile (fun r : ℤ × ℚ × ℚ => r.1 == k0) with
          | nil => rw [hBc] at hb; simp at hb
          | cons b0 t =>
            rw [hBc, List.map_cons] at hb
            rcases Option.some.inj hb with rfl
            exact hBhead b0 (by rw [hBc]; rfl)
      have hkeysB : sortedDistinctKeys
            ((L'.dropWhile (fun r : ℤ × ℚ × ℚ => r.1 == k0)).map (·.1))
          = dedupConsecutive
              ((L'.dropWhile (fun r : ℤ × ℚ × ℚ => r.1 == k0)).map (·.1)) := by
        rw [sortedDistinctKeys, List.Sorted.insertionSort_eq hBsort]
      have hfilter0 : (((k0, pv0, v0) :: L').filter (fun r => r.1 == k0))
          = (k0, pv0, v0) :: L'.takeWhile (fun r : ℤ × ℚ × ℚ => r.1 == k0) := by
        rw [hsplit, List.filter_append,
          List.filter_eq_self.mpr (fun a ha => by
            have := hallA a ha
            simpa using this),
          List.filter_eq_nil_iff.mpr (fun b hb => by
            have := hBne b hb
            simpa using this),
          List.append_nil]
      have hfilterB : ∀ k ∈ dedupConsecutive
            ((L'.dropWhile (fun r : ℤ × ℚ × ℚ => r.1 == k0)).map (·.1)),
          (fun k => sessionVwap ((((k0, pv0, v0) :: L').filter
              (fun r => r.1 == k)).map (·.2))) k
            = (fun k => sessionVwap
                (((L'.dropWhile (fun r : ℤ × ℚ × ℚ => r.1 == k0)).filter
                  (fun r => r.1 == k)).map (·.2))) k := by
        intro k hk
        have hkB : k ∈ (L'.dropWhile (fun r : ℤ × ℚ × ℚ => r.1 == k0)).map (·.1) :=
          dedupConsecutive_subset _ k hk
        have hkgt : k0 < k := hBgt k hkB
        simp only
        rw [hsplit, List.filter_append,
          List.filter_eq_nil_iff.mpr (fun a ha => by
            have ha1 := hallA a ha
            simp only [beq_iff_eq, ha1]
            exact fun h => absurd (h ▸ hkgt) (lt_irrefl k0)),
          List.nil_append]
      have hlenB : (L'.dropWhile (fun r : ℤ × ℚ × ℚ => r.1 == k0)).length ≤ n := by
        have h1 : ((k0, pv0, v0) :: L').length
            = ((k0, pv0, v0) :: L'.takeWhile (fun r : ℤ × ℚ × ℚ => r.1 == k0)).length
              + (L'.dropWhile (fun r : ℤ × ℚ × ℚ => r.1 == k0)).length := by
          rw [hsplit, List.length_append]
        have h2 : 1 ≤ ((k0, pv0, v0)
            :: L'.takeWhile (fun r : ℤ × ℚ × ℚ => r.1 == k0)).length := by simp
        have h3 : ((k0, pv0, v0) :: L').length ≤ n + 1 := hlen
        omega
      have hBvol : ∀ x ∈ L'.dropWhile (fun r : ℤ × ℚ × ℚ => r.1 == k0), 0 ≤ x.2.2 := by
        intro x hx
        refine hvol x ?_
        rw [hsplit]
        exact List.mem_append.mpr (Or.inr hx)
      have hAvol : ∀ a ∈ (k0, pv0, v0) :: L'.takeWhile (fun r : ℤ × ℚ × ℚ => r.1 == k0),
          0 ≤ a.2.2 := by
        intro a ha
        refine hvol a ?_
        rw [hsplit]
        exact List.mem_append.mpr (Or.inl ha)
      have hIH := ih _ hlenB hBsort hBvol
      have hcode : groupbyVwap ((k0, pv0, v0) :: L')
          = sessionVwap (((k0, pv0, v0)
              :: L'.takeWhile (fun r : ℤ × ℚ × ℚ => r.1 == k0)).map (·.2))
            ++ vwapSpec (L'.dropWhile (fun r : ℤ × ℚ × ℚ => r.1 == k0)) := by
        rw [groupbyVwap, hkeysList, List.flatMap_cons, hfilter0]
        congr 1
        rw [flatMap_congr_mem _ _ _ hfilterB]
        have hgB : groupbyVwap (L'.dropWhile (fun r : ℤ × ℚ × ℚ => r.1 == k0))
            = (dedupConsecutive
                ((L'.dropWhile (fun r : ℤ × ℚ × ℚ => r.1 == k0)).map (·.1))).flatMap
                (fun k => sessionVwap
                  (((L'.dropWhile (fun r : ℤ × ℚ × ℚ => r.1 == k0)).filter
                    (fun r => r.1 == k)).map (·.2))) := by
          rw [groupbyVwap, hkeysB]
        rw [← hgB, hIH]
      have hspec : vwapSpec ((k0, pv0, v0) :: L')
          = sessionVwap (((k0, pv0, v0)
              :: L'.takeWhile (fun r : ℤ × ℚ × ℚ => r.1 == k0)).map (·.2))
            ++ vwapSpec (L'.dropWhile (fun r : ℤ × ℚ × ℚ => r.1 == k0)) := by
        have h0 : vwapSpec ((k0, pv0, v0) :: L')
            = vwapSpecGo k0 0 0 ((k0, pv0, v0) :: L') := rfl
        rw [h0]
        conv_lhs => rw [hsplit]
        rw [vwapSpecGo_append k0 _ hallA hAvol _ hBhead 0 0 le_rfl]
        rfl
      rw [hcode, hspec]

theorem colSeries_length (df : DataFrame) (c : String) :
    (colSeries df c).length = df.rows.length := by
  simp [colSeries]

theorem typicalSeries_length (df : DataFrame) :
    (typicalSeries df).length = df.rows.length := by
  simp [typicalSeries, colSeries]

theorem sessionKeys_length (df : DataFrame) :
    (sessionKeys df).length = df.rows.length := by
  unfold sessionKeys
  split <;> simp [indexTs]

theorem keyedVolumes_length (df : DataFrame) :
    (keyedVolumes df).length = df.rows.length := by
  unfold keyedVolumes
  rw [List.length_zip, List.length_zip, List.length_zipWith, typicalSeries_length,
    colSeries_length, sessionKeys_length]
  omega

theorem keyedVolumes_map_fst (df : DataFrame) :
    (keyedVolumes df).map (·.1) = sessionKeys df := by
  unfold keyedVolumes
  apply List.map_fst_zip
  rw [List.length_zip, List.length_zipWith, typicalSeries_length, colSeries_length,
    sessionKeys_length]
  omega

theorem keyedVolumes_getD (df : DataFrame) (i : ℕ) (h : i < df.rows.length) :
    (keyedVolumes df).getD i (0, 0, 0)
      = ((sessionKeys df).getD i 0,
          ((typicalSeries df).getD i 0 * (colSeries df "volume").getD i 0,
           (colSeries df "volume").getD i 0)) := by
  have h1 : i < (keyedVolumes df).length := by rw [keyedVolumes_length]; exact h
  have h2 : i < (sessionKeys df).length := by rw [sessionKeys_length]; exact h
  have h3 : i < (typicalSeries df).length := by rw [typicalSeries_length]; exact h
  have h4 : i < (colSeries df "volume").length := by rw [colSeries_length]; exact h
  rw [List.getD_eq_getElem _ _ h1, List.getD_eq_getElem _ _ h2,
    List.getD_eq_getElem _ _ h3, List.getD_eq_getElem _ _ h4]
  unfold keyedVolumes
  simp [List.getElem_zip, List.getElem_zipWith]

/-- Reduction of `calculate_vwap` on validated input. -/
theorem calculate_vwap_ok (df : DataFrame) (hne : df.rows ≠ [])
    (hch : df.cols.contains "high" = true) (hclo : df.cols.contains "low" = true)
    (hcc : df.cols.contains "close" = true) (hcv : df.cols.contains "volume" = true) :
    calculate_vwap df = Except.ok (groupbyVwap (keyedVolumes df)) := by
  have h1 : df.rows.isEmpty = false := by
    cases h : df.rows with
    | nil => exact absurd h hne
    | cons a t => rfl
  have hmiss : ["high", "low", "close", "volume"].filter (fun c => !(df.cols.contains c))
      = [] := by
    rw [List.filter_eq_nil_iff]
    intro c hc
    rcases List.mem_cons.mp hc with rfl | hc
    · have hm : "high" ∈ df.cols := by simpa using hch
      simp [hm]
    rcases List.mem_cons.mp hc with rfl | hc
    · have hm : "low" ∈ df.cols := by simpa using hclo
      simp [hm]
    rcases List.mem_cons.mp hc with rfl | hc
    · have hm : "close" ∈ df.cols := by simpa using hcc
      simp [hm]
    rcases List.mem_cons.mp hc with rfl | hc
    · have hm : "volume" ∈ df.cols := by simpa using hcv
      simp [hm]
    simp at hc
  unfold calculate_vwap
  rw [if_neg (by simp [h1]), hmiss]
  rfl

/-- The streaming session VWAP emits, at a row that starts a fresh sub-run
of its key, exactly that row's price-volume ratio. -/
theorem vwapSpecGo_boundary :
    ∀ (L : List (ℤ × ℚ × ℚ)) (pk : ℤ) (cpv cvol : ℚ) (i : ℕ) (d : ℤ × ℚ × ℚ),
      i < L.length →
      ((i = 0 ∧ (L.getD 0 d).1 ≠ pk)
        ∨ (1 ≤ i ∧ (L.getD i d).1 ≠ (L.getD (i-1) d).1)) →
      0 < (L.getD i d).2.2 →
      (vwapSpecGo pk cpv cvol L).getD i none
        = some ((L.getD i d).2.1 / (L.getD i d).2.2) := by
  intro L
  induction L with
  | nil => intro pk cpv cvol i d h; simp at h
  | cons x t ih =>
    intro pk cpv cvol i d hlen hb hv
    obtain ⟨k, pv, v⟩ := x
    cases i with
    | zero =>
      rcases hb with ⟨_, hne⟩ | ⟨h1, _⟩
      · have hne' : k ≠ pk := by simpa using hne
        have hv' : 0 < v := by simpa using hv
        rw [vwapSpecGo]
        rw [if_neg hne', if_neg hne']
        simp [ne_of_gt hv']
      · omega
    | succ j =>
      have hlen' : j < t.length := by simpa using hlen
      rw [vwapSpecGo]
      rw [List.getD_cons_succ]
      cases j with
      | zero =>
        rcases hb with ⟨h0, _⟩ | ⟨_, hne⟩
        · exact absurd h0 (by omega)
        · refine ih k _ _ 0 d hlen' (Or.inl ⟨rfl, ?_⟩) (by simpa using hv)
          simpa using hne
      | succ j' =>
        rcases hb with ⟨h0, _⟩ | ⟨_, hne⟩
        · exact absurd h0 (by omega)
        · refine ih k _ _ (j' + 1) d hlen' (Or.inr ⟨by omega, ?_⟩) (by simpa using hv)
          simpa using hne

/-- Boundary property at the level of `vwapSpec`: the first bar of a new
session with positive volume gets exactly its own price-volume ratio. -/
theorem vwapSpec_boundary (L : List (ℤ × ℚ × ℚ)) (i : ℕ) (d : ℤ × ℚ × ℚ)
    (hlen : i < L.length)
    (hb : i = 0 ∨ (L.getD i d).1 ≠ (L.getD (i-1) d).1)
    (hv : 0 < (L.getD i d).2.2) :
    (vwapSpec L).getD i none = some ((L.getD i d).2.1 / (L.getD i d).2.2) := by
  cases L with
  | nil => simp at hlen
  | cons x t =>
    obtain ⟨k, pv, v⟩ := x
    cases i with
    | zero =>
      have hv' : 0 < v := by simpa using hv
      show (vwapSpecGo k 0 0 ((k, pv, v) :: t)).getD 0 none = _
      rw [vwapSpecGo]
      simp [ne_of_gt hv']
    | succ j =>
      rcases hb with h0 | hne
      · exact absurd h0 (by omega)
      · exact vwapSpecGo_boundary ((k, pv, v) :: t) k 0 0 (j + 1) d hlen
          (Or.inr ⟨by omega, hne⟩) hv

/-- Counterexample to C3 as stated: with the later calendar date first, the
grouped computation collects day-0 values before day-1 values but pairs them
positionally with the original index, so the bar opening the second session
(typical price 6, volume 1) is reported as 30. The streaming
session-delimited computation of the claim returns `[30, 6]` instead. -/
theorem C3_claim_counterexample :
    calculate_vwap dfVwapCex = Except.ok [some 6, some 30]
      ∧ vwapSpec (keyedVolumes dfVwapCex) = [some 30, some 6]
      ∧ sessionKeys dfVwapCex = [1, 0]
      ∧ typicalSeries dfVwapCex = [30, 6]
      ∧ colSeries dfVwapCex "volume" = [1, 1]
      ∧ some (30 : ℚ) ≠ some (6 : ℚ) := by
  have e1 : cellVal ["high", "low", "close", "volume"] [40, 30, 20, 1] "high"
      = some 40 := rfl
  have e2 : cellVal ["high", "low", "close", "volume"] [40, 30, 20, 1] "low"
      = some 30 := rfl
  have e3 : cellVal ["high", "low", "close", "volume"] [40, 30, 20, 1] "close"
      = some 20 := rfl
  have e4 : cellVal ["high", "low", "close", "volume"] [40, 30, 20, 1] "volume"
      = some 1 := rfl
  have e5 : cellVal ["high", "low", "close", "volume"] [9, 6, 3, 1] "high"
      = some 9 := rfl
  have e6 : cellVal ["high", "low", "close", "volume"] [9, 6, 3, 1] "low"
      = some 6 := rfl
  have e7 : cellVal ["high", "low", "close", "volume"] [9, 6, 3, 1] "close"
      = some 3 := rfl
  have e8 : cellVal ["high", "low", "close", "volume"] [9, 6, 3, 1] "volume"
      = some 1 := rfl
  have hd0 : dateOf 0 = 0 := by simp [dateOf]
  have hd1 : dateOf 1 = 1 := by simp [dateOf]
  refine ⟨?_, ?_, ?_, ?_, ?_, by simp⟩
  · norm_num [calculate_vwap, dfVwapCex, groupbyVwap, keyedVolumes, sessionKeys, indexTs,
      typicalSeries, colSeries, e1, e2, e3, e4, e5, e6, e7, e8, hd0, hd1,
      sortedDistinctKeys, List.insertionSort, List.orderedInsert, dedupConsecutive,
      sessionVwap, sessionVwapGo]
  · norm_num [dfVwapCex, keyedVolumes, sessionKeys, indexTs, typicalSeries, colSeries,
      e1, e2, e3, e4, e5, e6, e7, e8, hd0, hd1, vwapSpec, vwapSpecGo]
  · norm_num [dfVwapCex, sessionKeys, indexTs, dateOf]
  · norm_num [dfVwapCex, typicalSeries, colSeries, e1, e2, e3, e4, e5, e6, e7, e8]
  · norm_num [dfVwapCex, colSeries, e4, e8]

/-- C3 (amended): for bars whose session keys are non-decreasing along the
input (the date-sorted inputs the store supplies; an index without dates is
one constant-key session) and with non-negative volumes, `calculate_vwap`
returns exactly the session-delimited streaming cumulative VWAP of the
claim: running sums of price*volume and volume that reset exactly at a
session-key change, undefined while the cumulated volume is still zero, a
zero-volume bar never resetting the sums; in particular the first bar of a
new session with positive volume gets its own typical price. -/
theorem C3_vwap_session_anchoring (df : DataFrame)
    (hne : df.rows ≠ [])
    (hch : df.cols.contains "high" = true) (hclo : df.cols.contains "low" = true)
    (hcc : df.cols.contains "close" = true) (hcv : df.cols.contains "volume" = true)
    (hvol : ∀ v ∈ colSeries df "volume", 0 ≤ v)
    (hsort : List.Pairwise (fun a b : ℤ => a ≤ b) (sessionKeys df)) :
    calculate_vwap df = Except.ok (vwapSpec (keyedVolumes df))
      ∧ (∀ i, i < df.rows.length →
          (i = 0 ∨ (sessionKeys df).getD i 0 ≠ (sessionKeys df).getD (i-1) 0) →
          0 < (colSeries df "volume").getD i 0 →
          (vwapSpec (keyedVolumes df)).getD i none
            = some ((typicalSeries df).getD i 0)) := by
  have hvols : ∀ x ∈ keyedVolumes df, 0 ≤ x.2.2 := by
    intro x hx
    obtain ⟨k, pv, v⟩ := x
    unfold keyedVolumes at hx
    have h2 := (List.of_mem_zip hx).2
    have h3 := (List.of_mem_zip h2).2
    exact hvol v h3
  have hsort' : List.Pairwise (fun a b : ℤ => a ≤ b) ((keyedVolumes df).map (·.1)) := by
    rw [keyedVolumes_map_fst]
    exact hsort
  constructor
  · rw [calculate_vwap_ok df hne hch hclo hcc hcv]
    rw [groupbyVwap_eq_vwapSpec (keyedVolumes df).length (keyedVolumes df) le_rfl
      hsort' hvols]
  · intro i hi hb hvpos
    have hgd := keyedVolumes_getD df i hi
    have hlenL : i < (keyedVolumes df).length := by rw [keyedVolumes_length]; exact hi
    have hvL : 0 < ((keyedVolumes df).getD i (0, 0, 0)).2.2 := by
      rw [hgd]
      exact hvpos
    have hbL : i = 0 ∨ ((keyedVolumes df).getD i (0, 0, 0)).1
        ≠ ((keyedVolumes df).getD (i-1) (0, 0, 0)).1 := by
      rcases hb with h0 | hne'
      · exact Or.inl h0
      · right
        have hi' : i - 1 < df.rows.length := by omega
        rw [hgd, keyedVolumes_getD df (i-1) hi']
        exact hne'
    have := vwapSpec_boundary (keyedVolumes df) i (0, 0, 0) hlenL hbL hvL
    rw [hgd] at this
    rw [this]
    have hvne : (colSeries df "volume").getD i 0 ≠ 0 := ne_of_gt hvpos
    rw [mul_div_cancel_right₀ _ hvne]

/-- Witness for C3 (amended): two sessions over sorted dates, the first
containing a zero-volume bar, the second opening with positive volume. -/
theorem C3_vwap_session_anchoring_witness :
    calculate_vwap dfVwapOk = Except.ok (vwapSpec (keyedVolumes dfVwapOk))
      ∧ (∀ i, i < dfVwapOk.rows.length →
          (i = 0 ∨ (sessionKeys dfVwapOk).getD i 0 ≠ (sessionKeys dfVwapOk).getD (i-1) 0) →
          0 < (colSeries dfVwapOk "volume").getD i 0 →
          (vwapSpec (keyedVolumes dfVwapOk)).getD i none
            = some ((typicalSeries dfVwapOk).getD i 0)) :=
  C3_vwap_session_anchoring dfVwapOk (by decide) (by decide) (by decide) (by decide)
    (by decide) (by decide)
    (by norm_num [sessionKeys, dfVwapOk, indexTs, dateOf, List.pairwise_cons])

end ZeroLag